import Mathlib

/-!
Verification development for the `number-formatter` repository: a shallow
embedding in Lean 4 of the live code paths of the crate (the modules actually
declared and reachable from `src/lib.rs`), namely:

  * `src/types.rs`            — token / section / format / locale data model
  * `src/parser/tokens.rs`    — the tokenizer primitives
  * `src/parser/combinators.rs` — the condition parser
  * `src/parser/sections.rs`  — section tokenization, month/minute ambiguity
                                resolution, scaling commas, fraction scan
  * `src/parser/format.rs`    — `parse_number_format`
  * `src/formatter/mod.rs`    — `format_number`, `select_section`,
                                `format_value`, `format_exponential`

Numeric values (`f64` in the source) are modelled as exact rationals `ℚ`;
machine floating point (NaN, infinities, rounding of binary floats) is outside
the model.  Strings are worked with through their character lists.

Note on the source: `src/formatter/mod.rs` declares no submodules, so the
files `formatter/core.rs`, `formatter/datetime*`, `formatter/fraction/*`,
`formatter/exponential.rs`, `formatter/standard_numeric.rs` etc. are not part
of the crate's module tree and are not compiled; the live render path is the
one embedded here.  Also, `parser/tokens.rs` constructs the variants
`ElapsedHoursPadded`, `ElapsedMinutesPadded`, `ElapsedSecondsPadded`,
`CurrencySymbolLocaleDefault`, `CurrencySymbolLocalePrefixed` and
`parser/format.rs` constructs `GeneralNumeric`, none of which are declared in
`types.rs` (the crate as committed does not type-check); the enum below is the
minimal completion that makes the parser well-typed, exactly as the parser
uses them.
-/

-- Rational arithmetic is `@[irreducible]` in Batteries; re-open it (for this
-- file) so that concrete runs of the embedded code can be evaluated by `decide`.
attribute [local semireducible] Rat.add Rat.mul Rat.sub Rat.inv Rat.ofScientific

/-- Decidable equality for parse results. -/
instance {α β : Type} [DecidableEq α] [DecidableEq β] : DecidableEq (Except α β) := fun a b =>
  match a, b with
  | .ok x, .ok y => if h : x = y then .isTrue (by rw [h]) else .isFalse (by simp [h])
  | .error x, .error y => if h : x = y then .isTrue (by rw [h]) else .isFalse (by simp [h])
  | .ok _, .error _ => .isFalse (by simp)
  | .error _, .ok _ => .isFalse (by simp)

namespace NumFmt

/-- Style (case) for AM/PM or A/P markers — `types.rs` `AmPmStyle`. -/
inductive AmPmStyle where
  | upperCase
  | lowerCase
  deriving DecidableEq, Repr

/-- Color types — `types.rs` `ColorType`. -/
inductive ColorType where
  | red | green | blue | magenta | cyan | yellow | black | white
  deriving DecidableEq, Repr

/-- Type of exponential marker — `types.rs` `ExponentialNotation` (`E+` / `E-`). -/
inductive ExpSign where
  | plus
  | minus
  deriving DecidableEq, Repr

/-- A single format token — `types.rs` `FormatToken`, completed with the five
variants the parser constructs but `types.rs` omits (see module header). -/
inductive FormatToken where
  | DigitOrZero
  | DigitIfNeeded
  | DigitOrSpace
  | DecimalPoint
  | ThousandsSeparator
  | Percentage
  | Exponential (sign : ExpSign)
  | LiteralChar (c : Char)
  | Fill (c : Char)
  | SkipWidth (c : Char)
  | QuotedText (s : String)
  | TextValue
  | Color (c : ColorType)
  | YearTwoDigit
  | YearFourDigit
  | MonthNum
  | MonthNumPadded
  | MonthAbbr
  | MonthFullName
  | MonthLetter
  | DayNum
  | DayNumPadded
  | WeekdayAbbr
  | WeekdayFullName
  | Hour12Or24
  | Hour12Or24Padded
  | MinuteNum
  | MinuteNumPadded
  | SecondNum
  | SecondNumPadded
  | AmPm (style : AmPmStyle)
  | AP (style : AmPmStyle)
  | ElapsedHours
  | ElapsedMinutes
  | ElapsedSeconds
  | MonthOrMinute1
  | MonthOrMinute2
  -- variants constructed by the parser but missing from types.rs:
  | ElapsedHoursPadded
  | ElapsedMinutesPadded
  | ElapsedSecondsPadded
  | CurrencySymbolLocaleDefault
  | CurrencySymbolLocalePrefixed (s : String)
  | GeneralNumeric
  deriving DecidableEq, Repr

/-- `types.rs` `FormatToken::is_numeric_or_date`. -/
def FormatToken.is_numeric_or_date : FormatToken → Bool
  | .YearTwoDigit | .YearFourDigit
  | .MonthNum | .MonthNumPadded | .MonthAbbr | .MonthFullName | .MonthLetter
  | .DayNum | .DayNumPadded | .WeekdayAbbr | .WeekdayFullName
  | .Hour12Or24 | .Hour12Or24Padded
  | .MinuteNum | .MinuteNumPadded | .SecondNum | .SecondNumPadded
  | .AmPm _ | .AP _
  | .ElapsedHours | .ElapsedMinutes | .ElapsedSeconds
  | .MonthOrMinute1 | .MonthOrMinute2
  | .DigitOrZero | .DigitIfNeeded | .DigitOrSpace | .DecimalPoint => true
  | _ => false

/-- `types.rs` `FormatToken::is_datetime_placeholder`. -/
def FormatToken.is_datetime_placeholder : FormatToken → Bool
  | .YearTwoDigit | .YearFourDigit
  | .MonthNum | .MonthNumPadded | .MonthAbbr | .MonthFullName | .MonthLetter
  | .DayNum | .DayNumPadded | .WeekdayAbbr | .WeekdayFullName
  | .Hour12Or24 | .Hour12Or24Padded
  | .MinuteNum | .MinuteNumPadded | .SecondNum | .SecondNumPadded
  | .AmPm _ | .AP _
  | .ElapsedHours | .ElapsedMinutes | .ElapsedSeconds
  | .MonthOrMinute1 | .MonthOrMinute2 => true
  | _ => false

/-- Comparison operators — `types.rs` `ComparisonOperator`. -/
inductive ComparisonOperator where
  | eq | gt | lt | ge | le | ne
  deriving DecidableEq, Repr

/-- A format condition — `types.rs` `Condition` (`value: f64`, modelled as `ℚ`). -/
structure Condition where
  operator : ComparisonOperator
  value : ℚ
  deriving DecidableEq, Repr

/-- A format section — `types.rs` `FormatSection`. -/
structure FormatSection where
  color : Option ColorType := none
  condition : Option Condition := none
  tokens : List FormatToken := []
  is_text_section : Bool := false
  num_scaling_commas : Nat := 0
  has_datetime : Bool := false
  has_text_format : Bool := false
  has_fraction : Bool := false
  fixed_denominator : Option Nat := none
  num_integer_part_tokens : Nat := 0
  num_fractional_part_tokens : Nat := 0
  deriving DecidableEq, Repr

/-- A complete number format — `types.rs` `NumberFormat`. -/
structure NumberFormat where
  positive_section : FormatSection
  negative_section : Option FormatSection := none
  zero_section : Option FormatSection := none
  text_section : Option FormatSection := none
  deriving DecidableEq, Repr

/-- Locale settings — `types.rs` `LocaleSettings`.  Only the fields the live
render path reads; the month/day/AM-PM name tables are consulted solely by the
(dead) datetime renderer and are omitted from the model. -/
structure LocaleSettings where
  decimal_point : Char := '.'
  thousands_separator : Char := ','
  deriving DecidableEq, Repr

/-- `LocaleSettings::default()`. -/
def defaultLocale : LocaleSettings := {}

/-! ## Parser plumbing

The source uses the `winnow` combinator library with a left-to-right,
first-match `alt` and greedy `repeat`.  We model a parser as a function from
the remaining input (a character list) to `Option (result × remaining)`;
`none` is a (backtracking) parse failure. -/

def P (α : Type) : Type := List Char → Option (α × List Char)

/-- ASCII lower-casing, as used by `winnow`'s `Caseless` comparisons. -/
def asciiLower (c : Char) : Char :=
  if 'A' ≤ c ∧ c ≤ 'Z' then Char.ofNat (c.toNat + 32) else c

/-- `winnow::token::literal(pat)` — exact match. -/
def litStr (pat : List Char) : P Unit := fun input =>
  if pat.isPrefixOf input then some ((), input.drop pat.length) else none

/-- `winnow::token::literal(Caseless(pat))` — ASCII-case-insensitive match. -/
def litCaseless (pat : List Char) : P Unit := fun input =>
  if (pat.map asciiLower).isPrefixOf (input.take pat.length |>.map asciiLower)
      ∧ pat.length ≤ input.length
  then some ((), input.drop pat.length) else none

/-- Greedily split off the longest run of characters drawn from `cs`. -/
def takeRunOf (cs : List Char) : List Char → Nat × List Char
  | [] => (0, [])
  | c :: rest =>
    if c ∈ cs then
      let (n, r) := takeRunOf cs rest
      (n + 1, r)
    else (0, c :: rest)

/-- `winnow` greedy `repeat(min.., one_of(cs))`. -/
def repAtLeast (min : Nat) (cs : List Char) : P Unit := fun input =>
  let (n, rest) := takeRunOf cs input
  if min ≤ n then some ((), rest) else none

/-- Split off at most `maxTake` characters drawn from `cs`. -/
def takeRunAtMost (maxTake : Nat) (cs : List Char) : List Char → Nat × List Char
  | [] => (0, [])
  | c :: rest =>
    match maxTake with
    | 0 => (0, c :: rest)
    | m + 1 =>
      if c ∈ cs then
        let (n, r) := takeRunAtMost m cs rest
        (n + 1, r)
      else (0, c :: rest)

/-- `winnow` greedy `repeat(min..maxExcl, one_of(cs))` (at most `maxExcl - 1`). -/
def repRange (min maxExcl : Nat) (cs : List Char) : P Unit := fun input =>
  let (n, rest) := takeRunAtMost (maxExcl - 1) cs input
  if min ≤ n then some ((), rest) else none

/-- `winnow::combinator::alt` — try parsers in order, first success wins. -/
def altP (ps : List (P α)) : P α := fun input => ps.firstM (fun p => p input)

/-- One character drawn from `cs` (`winnow::token::one_of`). -/
def oneOfP (cs : List Char) : P Char := fun input =>
  match input with
  | c :: rest => if c ∈ cs then some (c, rest) else none
  | [] => none

/-- Any single character (`winnow::token::any`). -/
def anyP : P Char := fun input =>
  match input with
  | c :: rest => some (c, rest)
  | [] => none

/-! ## Tokenizer — `src/parser/tokens.rs`

One Lean definition per `parse_*` function of the source, same names.  The
functions `parse_elapsed_hours_padded` / `..minutes..` / `..seconds..` and
`parse_literal_percentage_sign` exist in `tokens.rs` but are referenced from
no live alternation (neither `sections.rs` nor the used part of
`combinators.rs`), so they are not embedded. -/

def parse_year_four_digit : P FormatToken := fun i =>
  (repAtLeast 3 ['y', 'Y'] i).map fun (_, r) => (FormatToken.YearFourDigit, r)

def parse_year_two_digit : P FormatToken := fun i =>
  (repRange 1 3 ['y', 'Y'] i).map fun (_, r) => (FormatToken.YearTwoDigit, r)

def parse_month_letter : P FormatToken := fun i =>
  (litCaseless "mmmmm".data i).map fun (_, r) => (FormatToken.MonthLetter, r)

def parse_month_full_name : P FormatToken := fun i =>
  (litCaseless "mmmm".data i).map fun (_, r) => (FormatToken.MonthFullName, r)

def parse_month_abbr : P FormatToken := fun i =>
  (litCaseless "mmm".data i).map fun (_, r) => (FormatToken.MonthAbbr, r)

def parse_month_or_minute_padded : P FormatToken := fun i =>
  (litCaseless "mm".data i).map fun (_, r) => (FormatToken.MonthOrMinute2, r)

def parse_month_or_minute_single : P FormatToken := fun i =>
  (litCaseless "m".data i).map fun (_, r) => (FormatToken.MonthOrMinute1, r)

def parse_day_full_name : P FormatToken := fun i =>
  (altP [repAtLeast 4 ['d', 'D'], repAtLeast 4 ['a', 'A']] i).map
    fun (_, r) => (FormatToken.WeekdayFullName, r)

def parse_day_abbr : P FormatToken := fun i =>
  (altP [litCaseless "ddd".data, litCaseless "aaa".data] i).map
    fun (_, r) => (FormatToken.WeekdayAbbr, r)

def parse_day_padded : P FormatToken := fun i =>
  (litCaseless "dd".data i).map fun (_, r) => (FormatToken.DayNumPadded, r)

def parse_day_single : P FormatToken := fun i =>
  (litCaseless "d".data i).map fun (_, r) => (FormatToken.DayNum, r)

def parse_hour_padded : P FormatToken := fun i =>
  (repAtLeast 2 ['h', 'H'] i).map fun (_, r) => (FormatToken.Hour12Or24Padded, r)

def parse_hour_single : P FormatToken := fun i =>
  (litCaseless "h".data i).map fun (_, r) => (FormatToken.Hour12Or24, r)

def parse_second_padded : P FormatToken := fun i =>
  (repAtLeast 2 ['s', 'S'] i).map fun (_, r) => (FormatToken.SecondNumPadded, r)

def parse_second_single : P FormatToken := fun i =>
  (litCaseless "s".data i).map fun (_, r) => (FormatToken.SecondNum, r)

def parse_am_pm : P FormatToken := fun i =>
  match litStr "AM/PM".data i with
  | some (_, r) => some (FormatToken.AmPm .upperCase, r)
  | none =>
    match litStr "am/pm".data i with
    | some (_, r) => some (FormatToken.AmPm .lowerCase, r)
    | none => none

def parse_a_p : P FormatToken := fun i =>
  match litStr "A/P".data i with
  | some (_, r) => some (FormatToken.AP .upperCase, r)
  | none =>
    match litStr "a/p".data i with
    | some (_, r) => some (FormatToken.AP .lowerCase, r)
    | none => none

/-- `delimited("[", Caseless(body), "]")` used by the elapsed-time parsers. -/
def bracketCaseless (body : List Char) (t : FormatToken) : P FormatToken := fun i =>
  match litStr "[".data i with
  | some (_, r1) =>
    match litCaseless body r1 with
    | some (_, r2) =>
      match litStr "]".data r2 with
      | some (_, r3) => some (t, r3)
      | none => none
    | none => none
  | none => none

def parse_elapsed_hours : P FormatToken := bracketCaseless ['h'] .ElapsedHours

def parse_elapsed_minutes : P FormatToken := bracketCaseless ['m'] .ElapsedMinutes

def parse_elapsed_seconds : P FormatToken := bracketCaseless ['s'] .ElapsedSeconds

def parse_digit_or_zero : P FormatToken := fun i =>
  (litStr ['0'] i).map fun (_, r) => (FormatToken.DigitOrZero, r)

def parse_digit_if_needed : P FormatToken := fun i =>
  (litStr ['#'] i).map fun (_, r) => (FormatToken.DigitIfNeeded, r)

def parse_digit_or_space : P FormatToken := fun i =>
  (litStr ['?'] i).map fun (_, r) => (FormatToken.DigitOrSpace, r)

def parse_decimal_point : P FormatToken := fun i =>
  (litStr ['.'] i).map fun (_, r) => (FormatToken.DecimalPoint, r)

def parse_thousands_separator : P FormatToken := fun i =>
  (litStr [','] i).map fun (_, r) => (FormatToken.ThousandsSeparator, r)

def parse_percentage : P FormatToken := fun i =>
  (litStr ['%'] i).map fun (_, r) => (FormatToken.Percentage, r)

def parse_exponential : P FormatToken := fun i =>
  match litCaseless "E+".data i with
  | some (_, r) => some (FormatToken.Exponential .plus, r)
  | none =>
    match litCaseless "E-".data i with
    | some (_, r) => some (FormatToken.Exponential .minus, r)
    | none => none

def parse_text_value_token : P FormatToken := fun i =>
  (litStr ['@'] i).map fun (_, r) => (FormatToken.TextValue, r)

def parse_escaped_char_as_literal : P FormatToken := fun i =>
  match i with
  | '\\' :: c :: rest => some (FormatToken.LiteralChar c, rest)
  | _ => none

def parse_literal_passthrough : P FormatToken := fun i =>
  (oneOfP ['$', '+', '(', ':', '^', '\'', '{', '<', '=', '-', '/', ')', '!',
           '&', '~', '}', '>', ' '] i).map
    fun (c, r) => (FormatToken.LiteralChar c, r)

def parse_fill : P FormatToken := fun i =>
  match i with
  | '*' :: c :: rest => some (FormatToken.Fill c, rest)
  | _ => none

def parse_skip_width : P FormatToken := fun i =>
  match i with
  | '_' :: c :: rest => some (FormatToken.SkipWidth c, rest)
  | _ => none

/-- Content of a quoted-text token: `repeat(0.., alt((preceded('\\', any),
none_of('"'))))` — greedy, an escaped character contributes the character
after the backslash, and the loop stops in front of an unescaped `"`. -/
def quotedContent : List Char → List Char × List Char
  | [] => ([], [])
  | '\\' :: d :: rest =>
    let (cs, r) := quotedContent rest
    (d :: cs, r)
  | ['\\'] => (['\\'], [])
  | c :: rest =>
    if c = '"' then ([], c :: rest)
    else
      let (cs, r) := quotedContent rest
      (c :: cs, r)

def parse_quoted_text : P FormatToken := fun i =>
  match i with
  | '"' :: rest =>
    let (cs, r) := quotedContent rest
    match r with
    | '"' :: r2 => some (FormatToken.QuotedText (String.mk cs), r2)
    | _ => none
  | _ => none

def parse_color : P FormatToken :=
  altP [
    fun i => (litCaseless "[Red]".data i).map fun (_, r) => (FormatToken.Color .red, r),
    fun i => (litCaseless "[Green]".data i).map fun (_, r) => (FormatToken.Color .green, r),
    fun i => (litCaseless "[Blue]".data i).map fun (_, r) => (FormatToken.Color .blue, r),
    fun i => (litCaseless "[Magenta]".data i).map fun (_, r) => (FormatToken.Color .magenta, r),
    fun i => (litCaseless "[Cyan]".data i).map fun (_, r) => (FormatToken.Color .cyan, r),
    fun i => (litCaseless "[Yellow]".data i).map fun (_, r) => (FormatToken.Color .yellow, r),
    fun i => (litCaseless "[Black]".data i).map fun (_, r) => (FormatToken.Color .black, r),
    fun i => (litCaseless "[White]".data i).map fun (_, r) => (FormatToken.Color .white, r)]

/-- Split a list at the first occurrence of `stop` (remainder starts with
`stop`, or is empty when `stop` does not occur). -/
def splitUntil (stop : Char) : List Char → List Char × List Char
  | [] => ([], [])
  | c :: rest =>
    if c = stop then ([], c :: rest)
    else
      let (pre, r) := splitUntil stop rest
      (c :: pre, r)

/-- `tokens.rs` `parse_excel_locale_currency_format`: `[$`, an optional
currency tag up to a `-`, a locale code up to `]`, then `]`.  When no `-` is
found the scan restarts from just after `[$` with an empty tag. -/
def parse_excel_locale_currency_format : P FormatToken := fun i =>
  match litStr "[$".data i with
  | none => none
  | some (_, rest0) =>
    let (tag, r1) := splitUntil '-' rest0
    let (tagFinal, r2) :=
      match r1 with
      | '-' :: r => (tag, r)
      | _ => (([] : List Char), rest0)
    let (code, r3) := splitUntil ']' r2
    match r3 with
    | ']' :: r4 =>
      if tagFinal ≠ [] then
        some (FormatToken.CurrencySymbolLocalePrefixed
          (String.mk (tagFinal ++ ':' :: '[' :: '$' :: '-' :: code ++ [']'])), r4)
      else
        some (FormatToken.CurrencySymbolLocaleDefault, r4)
    | _ => none

def parse_locale_currency_symbol : P FormatToken := fun i =>
  match i with
  | '¤' :: rest => some (FormatToken.CurrencySymbolLocaleDefault, rest)
  | _ => parse_excel_locale_currency_format i

/-! ## Condition parser — `src/parser/combinators.rs` -/

/-- `parse_comparison_operator_internal` — note `<=`, `>=`, `<>` are tried
before the one-character operators. -/
def parse_comparison_operator_internal : P ComparisonOperator :=
  altP [
    fun i => (litStr "<=".data i).map fun (_, r) => (ComparisonOperator.le, r),
    fun i => (litStr ">=".data i).map fun (_, r) => (ComparisonOperator.ge, r),
    fun i => (litStr "<>".data i).map fun (_, r) => (ComparisonOperator.ne, r),
    fun i => (litStr "=".data i).map fun (_, r) => (ComparisonOperator.eq, r),
    fun i => (litStr "<".data i).map fun (_, r) => (ComparisonOperator.lt, r),
    fun i => (litStr ">".data i).map fun (_, r) => (ComparisonOperator.gt, r)]

/-- Digits of a decimal run interpreted as a natural number. -/
def digitsToNat (ds : List Char) : Nat :=
  ds.foldl (fun acc c => acc * 10 + (c.toNat - '0'.toNat)) 0

def isAsciiDigit (c : Char) : Bool := '0' ≤ c ∧ c ≤ '9'

/-- Greedy run of ASCII digits (`winnow`'s `digit0` / `digit1`). -/
def digitRun : List Char → List Char × List Char
  | [] => ([], [])
  | c :: rest =>
    if isAsciiDigit c then
      let (ds, r) := digitRun rest
      (c :: ds, r)
    else ([], c :: rest)

/-- `parse_condition_value_internal` = `winnow::ascii::float::<f64>` on the
numeric forms `sign? (digits ('.' digits?)? | '.' digits) ([eE] sign? digits)?`.
The `inf`/`infinity`/`nan` special forms have no rational counterpart and are
omitted from the model (no claim exercises them).  The value is the exact
rational the lexeme denotes. -/
def floatP : P ℚ := fun input =>
  let (sgn, r0) : ℚ × List Char :=
    match input with
    | '+' :: r => (1, r)
    | '-' :: r => (-1, r)
    | _ => (1, input)
  let (ip, r1) := digitRun r0
  let core : Option (ℚ × List Char) :=
    if ip ≠ [] then
      match r1 with
      | '.' :: r2 =>
        let (fp, r3) := digitRun r2
        some ((digitsToNat ip : ℚ) + (digitsToNat fp : ℚ) / (10 : ℚ) ^ fp.length, r3)
      | _ => some ((digitsToNat ip : ℚ), r1)
    else
      match r1 with
      | '.' :: r2 =>
        let (fp, r3) := digitRun r2
        if fp ≠ [] then some ((digitsToNat fp : ℚ) / (10 : ℚ) ^ fp.length, r3)
        else none
      | _ => none
  match core with
  | none => none
  | some (base, r4) =>
    match r4 with
    | e :: r5 =>
      if e = 'e' ∨ e = 'E' then
        let (esgn, r6) : Bool × List Char :=
          match r5 with
          | '+' :: r => (false, r)
          | '-' :: r => (true, r)
          | _ => (false, r5)
        let (eds, r7) := digitRun r6
        if eds = [] then none  -- cut_err(digit1): digits are mandatory after e
        else
          let mag : ℚ := (10 : ℚ) ^ digitsToNat eds
          some (sgn * (if esgn then base / mag else base * mag), r7)
      else some (sgn * base, e :: r5)
    | [] => some (sgn * base, [])

/-- `parse_condition`: `delimited("[", (operator, float), "]")`. -/
def parse_condition : P Condition := fun i =>
  match litStr "[".data i with
  | none => none
  | some (_, r1) =>
    match parse_comparison_operator_internal r1 with
    | none => none
    | some (op, r2) =>
      match floatP r2 with
      | none => none
      | some (v, r3) =>
        match litStr "]".data r3 with
        | some (_, r4) => some ({ operator := op, value := v }, r4)
        | none => none

/-! ## Section parsing — `src/parser/sections.rs` -/

/-- The token alternation of `parse_section_tokens`, in source order:
date tokens, then time tokens, then number tokens, then text/special. -/
def sectionTokenOnce : P FormatToken :=
  altP [
    -- date_tokens
    parse_year_four_digit, parse_year_two_digit,
    parse_month_letter, parse_month_full_name, parse_month_abbr,
    parse_day_full_name, parse_day_abbr, parse_day_padded, parse_day_single,
    -- time_tokens
    parse_hour_padded, parse_second_padded, parse_month_or_minute_padded,
    parse_hour_single, parse_second_single, parse_month_or_minute_single,
    parse_am_pm, parse_a_p,
    parse_elapsed_hours, parse_elapsed_minutes, parse_elapsed_seconds,
    -- number_tokens
    parse_digit_or_zero, parse_digit_if_needed, parse_digit_or_space,
    parse_decimal_point, parse_thousands_separator, parse_percentage,
    parse_locale_currency_symbol, parse_exponential,
    -- text_special_tokens
    parse_text_value_token, parse_escaped_char_as_literal, parse_fill,
    parse_skip_width, parse_quoted_text, parse_color,
    parse_literal_passthrough]

/-- The tokenization loop of `parse_section_tokens`: repeat until the input is
exhausted or an (unconsumed) `;` section separator is next.  The fuel is set
to the input length plus one by the wrapper; every token consumes at least one
character, so the fuel never runs out there. -/
def sectionTokensLoop : Nat → List Char → Option (List FormatToken × List Char)
  | 0, _ => none
  | _ + 1, [] => some ([], [])
  | fuel + 1, c :: rest =>
    if c = ';' then some ([], c :: rest)
    else
      match sectionTokenOnce (c :: rest) with
      | none => none
      | some (t, r) =>
        match sectionTokensLoop fuel r with
        | none => none
        | some (ts, r2) => some (t :: ts, r2)

/-- `resolve_month_minute_ambiguity_in_section`, decision for position `i`:
the five minute-vs-month rules of `sections.rs` lines 267-337, all reading the
original token list. -/
def treatAsMinute (ts : List FormatToken) (i : Nat) : Bool :=
  let prev := if i = 0 then none else some (ts.getD (i - 1) (.LiteralChar ' '))
  let next := if i + 1 < ts.length then some (ts.getD (i + 1) (.LiteralChar ' ')) else none
  let next2 := if i + 2 < ts.length then some (ts.getD (i + 2) (.LiteralChar ' ')) else none
  -- Rule 1: preceded by an hour token; Rule 2: preceded by a literal ':'
  let r12 : Bool :=
    match prev with
    | some .Hour12Or24 | some .Hour12Or24Padded | some (.LiteralChar ':') => true
    | _ => false
  -- Rule 3: followed by a second token; Rule 4: followed by ':' then a second
  let r3 : Bool :=
    match next with
    | some .SecondNum | some .SecondNumPadded => true
    | _ => false
  let r4 : Bool :=
    match next, next2 with
    | some (.LiteralChar ':'), some .SecondNum => true
    | some (.LiteralChar ':'), some .SecondNumPadded => true
    | _, _ => false
  -- Rule 5: an AM/PM token anywhere and not adjacent to a date-ish token
  let sectionHasAmPm : Bool := ts.any fun t =>
    match t with
    | .AmPm _ | .AP _ => true
    | _ => false
  let isDateNeighbor : Option FormatToken → Bool := fun o =>
    match o with
    | some .DayNum | some .DayNumPadded | some .YearTwoDigit
    | some .YearFourDigit | some (.LiteralChar '/') | some (.LiteralChar '-') => true
    | _ => false
  let r5 : Bool := sectionHasAmPm ∧ ¬(isDateNeighbor prev ∨ isDateNeighbor next)
  r12 ∨ r3 ∨ r4 ∨ r5

/-- Resolution of one position (non-ambiguous tokens are left untouched). -/
def resolveTokenAt (ts : List FormatToken) (i : Nat) : FormatToken :=
  match ts.getD i (.LiteralChar ' ') with
  | .MonthOrMinute1 => if treatAsMinute ts i then .MinuteNum else .MonthNum
  | .MonthOrMinute2 => if treatAsMinute ts i then .MinuteNumPadded else .MonthNumPadded
  | t => t

/-- `resolve_month_minute_ambiguity_in_section`: every `MonthOrMinute*` token
is rewritten in place to a minute or month token, based on the original list. -/
def resolve_month_minute_ambiguity_in_section (ts : List FormatToken) : List FormatToken :=
  (List.range ts.length).map (resolveTokenAt ts)

/-- `parse_section_tokens`: tokenize, resolve the m/mm ambiguity, and inside a
date/time section turn leftover thousands separators into literal commas. -/
def parse_section_tokens (input : List Char) : Option (List FormatToken × List Char) :=
  match sectionTokensLoop (input.length + 1) input with
  | none => none
  | some (parts0, rest) =>
    let parts1 := resolve_month_minute_ambiguity_in_section parts0
    let parts2 :=
      if parts1.any (fun t => t.is_datetime_placeholder) then
        parts1.map fun t =>
          if t = FormatToken.ThousandsSeparator then FormatToken.LiteralChar ',' else t
      else parts1
    some (parts2, rest)

/-- Scan state for the fraction / fixed-denominator / placeholder-count pass
of `parse_one_section` (`sections.rs` lines 115-185). -/
structure SectionScanState where
  final_tokens : List FormatToken := []
  fixed_denominator : Option Nat := none
  has_fraction : Bool := false
  has_datetime : Bool := false
  has_text_format : Bool := false
  num_integer_part_tokens : Nat := 0
  num_fractional_part_tokens : Nat := 0
  in_integer_part : Bool := true
  deriving Repr

/-- Split off the run of `LiteralChar` digit tokens consumed after a `/` by
the fixed-denominator peeking loop. -/
def takeDigitLiteralRun : List FormatToken → List Char × List FormatToken
  | FormatToken.LiteralChar c :: rest =>
    if isAsciiDigit c then
      let (ds, r) := takeDigitLiteralRun rest
      (c :: ds, r)
    else ([], FormatToken.LiteralChar c :: rest)
  | ts => ([], ts)

/-- The per-token body of the scan loop.  Note: the datetime flag is updated
from the current token before the match, so a `/` is only treated as a
fraction slash when no date/time token occurred at or before it. -/
def sectionScanGo : Nat → SectionScanState → List FormatToken → SectionScanState
  | 0, st, _ => st
  | _ + 1, st, [] => st
  | fuel + 1, st, token :: rest =>
    let st := { st with
      has_datetime := st.has_datetime ∨ token.is_datetime_placeholder,
      has_text_format := st.has_text_format ∨ token = FormatToken.TextValue }
    match token with
    | .LiteralChar '/' =>
      if ¬st.has_datetime then
        let (ds, rest2) := takeDigitLiteralRun rest
        if ds ≠ [] then
          -- `den_str.parse::<u32>()` — fails only on u32 overflow
          if digitsToNat ds < 2 ^ 32 then
            sectionScanGo fuel
              { st with fixed_denominator := some (digitsToNat ds),
                        has_fraction := true } rest2
          else
            sectionScanGo fuel
              { st with final_tokens := st.final_tokens ++ [.LiteralChar '/'],
                        has_fraction := true } rest2
        else
          sectionScanGo fuel
            { st with final_tokens := st.final_tokens ++ [.LiteralChar '/'],
                      has_fraction := true } rest
      else
        sectionScanGo fuel
          { st with final_tokens := st.final_tokens ++ [.LiteralChar '/'] } rest
    | .DecimalPoint =>
      sectionScanGo fuel
        { st with in_integer_part := false,
                  final_tokens := st.final_tokens ++ [.DecimalPoint] } rest
    | .DigitOrZero | .DigitIfNeeded | .DigitOrSpace =>
      let st :=
        if st.in_integer_part then
          { st with num_integer_part_tokens := st.num_integer_part_tokens + 1 }
        else
          { st with num_fractional_part_tokens := st.num_fractional_part_tokens + 1 }
      sectionScanGo fuel { st with final_tokens := st.final_tokens ++ [token] } rest
    | t =>
      sectionScanGo fuel { st with final_tokens := st.final_tokens ++ [t] } rest

def sectionScan (ts : List FormatToken) : SectionScanState :=
  sectionScanGo (ts.length + 1) {} ts

/-- Index of the last numeric-related token (digit placeholders, decimal
point, exponential) — `iter().rposition(..)` in `sections.rs` line 190. -/
def lastNumericTokenIdx (ts : List FormatToken) : Option Nat :=
  (ts.reverse.findIdx? fun t =>
    match t with
    | .DigitOrZero | .DigitIfNeeded | .DigitOrSpace
    | .DecimalPoint | .Exponential _ => true
    | _ => false).map fun j => ts.length - 1 - j

/-- Count and remove the leading run of `ThousandsSeparator` tokens (the scan
stops at the first non-comma token). -/
def leadingCommaRun : List FormatToken → Nat × List FormatToken
  | FormatToken.ThousandsSeparator :: rest =>
    let (n, r) := leadingCommaRun rest
    (n + 1, r)
  | ts => (0, ts)

/-- `parse_one_section(section_index)`: optional leading condition (never for
the text section), tokenization, color extraction, fraction scan, and
scaling-comma extraction. -/
def parse_one_section (sectionIndex : Nat) (input : List Char) :
    Option (FormatSection × List Char) :=
  let is_text_s := sectionIndex = 3
  let (maybe_condition, input1) :=
    if is_text_s then ((none : Option Condition), input)
    else
      match parse_condition input with
      | some (c, r) => (some c, r)
      | none => (none, input)
  match parse_section_tokens input1 with
  | none => none
  | some (all_tokens, rest) =>
    let (color_opt, tokens_after_color) :=
      match all_tokens with
      | FormatToken.Color ct :: tl => (some ct, tl)
      | _ => ((none : Option ColorType), all_tokens)
    let scan := sectionScan tokens_after_color
    let toks := scan.final_tokens
    let (num_scaling, toks2) :=
      match lastNumericTokenIdx toks with
      | some lastIdx =>
        let (n, afterRun) := leadingCommaRun (toks.drop (lastIdx + 1))
        (n, toks.take (lastIdx + 1) ++ afterRun)
      | none =>
        leadingCommaRun toks
    some ({ condition := maybe_condition,
            tokens := toks2,
            is_text_section := is_text_s,
            color := color_opt,
            num_scaling_commas := num_scaling,
            has_datetime := scan.has_datetime,
            has_text_format := scan.has_text_format,
            has_fraction := scan.has_fraction,
            fixed_denominator := scan.fixed_denominator,
            num_integer_part_tokens := scan.num_integer_part_tokens,
            num_fractional_part_tokens := scan.num_fractional_part_tokens }, rest)

/-! ## Whole-format parsing — `src/parser/format.rs` -/

/-- Case-insensitive substring test used for the `General` special case
(`input_str.to_lowercase().contains("general")`, ASCII model). -/
def containsSub (needle : List Char) : List Char → Bool
  | [] => needle.isPrefixOf []
  | c :: rest => needle.isPrefixOf (c :: rest) ∨ containsSub needle rest

/-- The synthetic sections returned for a `General` format string
(`format.rs` lines 27-62). -/
def generalNumberFormat : NumberFormat :=
  { positive_section := { tokens := [FormatToken.GeneralNumeric] },
    negative_section := none,
    zero_section := none,
    text_section := some { tokens := [FormatToken.TextValue],
                           is_text_section := true,
                           has_text_format := true } }

/-- `if input.starts_with(';') { consume it and parse a section }`. -/
def parseOptSection (idx : Nat) (input : List Char) :
    Option (Option FormatSection × List Char) :=
  match input with
  | ';' :: rest =>
    match parse_one_section idx rest with
    | some (s, r) => some (some s, r)
    | none => none
  | _ => some ((none : Option FormatSection), input)

/-- `FormatSection` with its token list re-resolved (the second
`resolve_month_minute_ambiguity_in_section` application, `format.rs` 119-128). -/
def resolveSection (s : FormatSection) : FormatSection :=
  { s with tokens := resolve_month_minute_ambiguity_in_section s.tokens }

/-- The condition count of `format.rs` lines 135-147: how many of the
positive/negative/zero sections carry a condition. -/
def conditionedSectionCount (f : NumberFormat) : Nat :=
  (if f.positive_section.condition.isSome then 1 else 0)
  + (if (f.negative_section.map fun s => s.condition.isSome).getD false then 1 else 0)
  + (if (f.zero_section.map fun s => s.condition.isSome).getD false then 1 else 0)

/-- The tail of `parse_number_format` (`format.rs` lines 119-169): re-resolve
the m/mm ambiguity in every parsed section, then validate — no condition on
the text section, at most two conditioned sections, no numeric/date token in
the text section — and assemble the `NumberFormat`. -/
def validateAndAssemble (pos0 : FormatSection) (negO zeroO textO : Option FormatSection) :
    Except String NumberFormat :=
  let text := textO.map resolveSection
  if (text.map fun s => s.condition.isSome).getD false then
    .error "Text section must not have a condition"
  else
    let candidate : NumberFormat :=
      { positive_section := resolveSection pos0,
        negative_section := negO.map resolveSection,
        zero_section := zeroO.map resolveSection,
        text_section := text }
    if conditionedSectionCount candidate > 2 then
      .error "Format string cannot have more than two conditional sections"
    else if (text.map fun s =>
        s.tokens.any fun t => t.is_numeric_or_date).getD false then
      .error "Text section contains a numeric or date symbol"
    else
      .ok candidate

/-- `parse_number_format` — the compile entry point.  Error messages are
abridged (the source interpolates the remaining input into them). -/
def parse_number_format (s : String) : Except String NumberFormat :=
  if containsSub "general".data (s.data.map asciiLower) then
    .ok generalNumberFormat
  else
    match parse_one_section 0 s.data with
    | none => .error "Parse error in positive section"
    | some (pos0, r1) =>
      match parseOptSection 1 r1 with
      | none => .error "Parse error in negative section"
      | some (negO, r2) =>
        match parseOptSection 2 r2 with
        | none => .error "Parse error in zero section"
        | some (zeroO, r3) =>
          match parseOptSection 3 r3 with
          | none => .error "Parse error in text section"
          | some (textO, r4) =>
            if r4 ≠ [] then .error "Too many sections or trailing characters"
            else validateAndAssemble pos0 negO zeroO textO

/-! ## Numeric helpers for the formatter

`f64` values are modelled as exact rationals; truncation, fraction and the
rounding modes used by the source are made explicit below. -/

/-- Truncation toward zero (`f64::trunc` / `as i64`). -/
def ratTrunc (q : ℚ) : ℤ := if 0 ≤ q then ⌊q⌋ else ⌈q⌉

/-- `f64::fract`: `self - self.trunc()`. -/
def ratFract (q : ℚ) : ℚ := q - ratTrunc q

/-- `f64::round`: round half away from zero. -/
def rustRound (q : ℚ) : ℤ := if 0 ≤ q then ⌊q + 1 / 2⌋ else -⌊-q + 1 / 2⌋

/-- Round half to even (the tie rule of Rust float `Display`-with-precision). -/
def roundHalfEven (q : ℚ) : ℤ :=
  let f := ⌊q⌋
  let r := q - f
  if r < 1 / 2 then f
  else if 1 / 2 < r then f + 1
  else if f % 2 = 0 then f else f + 1

/-- Base-10 logarithm (floor) of a natural number, fuel-based. -/
def natLog10Aux : Nat → Nat → Nat
  | 0, _ => 0
  | fuel + 1, n => if n < 10 then 0 else natLog10Aux fuel (n / 10) + 1

def natLog10 (n : Nat) : Nat := natLog10Aux n n

/-- `⌊log10 q⌋` for a positive rational (the model of
`abs_value.log10().floor()`): the digit-count estimate, corrected by one when
it overshoots. -/
def ratLog10Floor (q : ℚ) : ℤ :=
  if q ≤ 0 then 0
  else
    let e0 : ℤ := (natLog10 q.num.toNat : ℤ) - (natLog10 q.den : ℤ)
    if q < (10 : ℚ) ^ e0 then e0 - 1 else e0

/-- Decimal digit characters of a natural number, most significant first
(`u64`-style `to_string`). -/
def natToCharsAux : Nat → Nat → List Char → List Char
  | 0, _, acc => acc
  | fuel + 1, n, acc =>
    if n < 10 then Char.ofNat (48 + n) :: acc
    else natToCharsAux fuel (n / 10) (Char.ofNat (48 + n % 10) :: acc)

def natToChars (n : Nat) : List Char := natToCharsAux (n + 1) n []

/-- `i64::to_string` as a character list. -/
def intToChars (n : ℤ) : List Char :=
  if n < 0 then '-' :: natToChars (-n).toNat else natToChars n.toNat

/-- Left-pad with `'0'` to the given width (`{:0w$}`). -/
def padZeroLeft (w : Nat) (cs : List Char) : List Char :=
  List.replicate (w - cs.length) '0' ++ cs

/-- Model of `format!("{:.p$}", m)` for a non-negative float with the decimal
point rendered as `dp` (the source formats, then replaces `'.'` with the
locale decimal point).  Rust prints the correctly rounded `p`-decimal string,
ties to even. -/
def fmtPrec (m : ℚ) (p : Nat) (dp : Char) : String :=
  let scaled := (roundHalfEven (m * (10 : ℚ) ^ p)).toNat
  if p = 0 then String.mk (natToChars scaled)
  else String.mk
    (natToChars (scaled / 10 ^ p) ++ dp :: padZeroLeft p (natToChars (scaled % 10 ^ p)))

/-! ## Section selection — `formatter/mod.rs` `select_section` -/

/-- Evaluation of one comparison condition against the value. -/
def condMatches (c : Condition) (v : ℚ) : Bool :=
  match c.operator with
  | .eq => v = c.value
  | .gt => v > c.value
  | .lt => v < c.value
  | .ge => v ≥ c.value
  | .le => v ≤ c.value
  | .ne => v ≠ c.value

/-- "A condition is present and satisfied". -/
def condHolds (oc : Option Condition) (v : ℚ) : Bool :=
  match oc with
  | some c => condMatches c v
  | none => false

/-- The sign-based fallback of `select_section` (lines 114-131): an
unconditioned negative section for `v < 0`, else an unconditioned zero
section for `v = 0`, else the positive section. -/
def selectFallback (v : ℚ) (f : NumberFormat) : FormatSection :=
  if v < 0 then
    match f.negative_section with
    | some s => if s.condition = none then s else f.positive_section
    | none => f.positive_section
  else if v = 0 then
    match f.zero_section with
    | some s => if s.condition = none then s else f.positive_section
    | none => f.positive_section
  else f.positive_section

def selectZeroCond (v : ℚ) (f : NumberFormat) : FormatSection :=
  match f.zero_section with
  | some s => if condHolds s.condition v then s else selectFallback v f
  | none => selectFallback v f

def selectNegCond (v : ℚ) (f : NumberFormat) : FormatSection :=
  match f.negative_section with
  | some s => if condHolds s.condition v then s else selectZeroCond v f
  | none => selectZeroCond v f

/-- `select_section`: conditions are evaluated in the fixed order positive,
negative, zero; first present-and-satisfied condition wins, then the
sign-based fallback. -/
def select_section (v : ℚ) (f : NumberFormat) : FormatSection :=
  if condHolds f.positive_section.condition v then f.positive_section
  else selectNegCond v f

/-! ## Exponential renderer — `formatter/mod.rs` `format_exponential` -/

def isDigitPh (t : FormatToken) : Bool :=
  match t with
  | .DigitOrZero | .DigitIfNeeded | .DigitOrSpace => true
  | _ => false

/-- Count of digit placeholders after the first decimal point within a token
list (the "fractional placeholder" count). -/
def fracPlaceholderCount (ts : List FormatToken) : Nat :=
  ((ts.dropWhile fun t => t ≠ FormatToken.DecimalPoint).drop 1).countP
    fun t => isDigitPh t

/-- `format_exponential`: mantissa/exponent split via `log10().floor()`,
mantissa rounded (`f64::round`, half away from zero) to the number of
fractional placeholders before the `E` token, exponent bumped when the
rounded mantissa reaches 10, then
`sign ++ mantissa ++ "E" ++ exponent_sign ++ zero-padded |exponent|`. -/
def format_exponential (value : ℚ) (sec : FormatSection) (expTokenIdx : Nat)
    (locale : LocaleSettings) : String :=
  let absValue := |value|
  let me : ℚ × ℤ :=
    if absValue = 0 then (0, 0)
    else
      let e := ratLog10Floor absValue
      (absValue / (10 : ℚ) ^ e, e)
  let mantissa := me.1
  let exponent := me.2
  let sign := if value < 0 then "-" else ""
  let mantissaPrecision := fracPlaceholderCount (sec.tokens.take expTokenIdx)
  let power : ℚ := (10 : ℚ) ^ mantissaPrecision
  let roundedMantissa : ℚ := (rustRound (mantissa * power) : ℚ) / power
  let fe : ℚ × ℤ :=
    if roundedMantissa = 0 then (0, 0)
    else if 10 ≤ roundedMantissa then (roundedMantissa / 10, exponent + 1)
    else (roundedMantissa, exponent)
    -- the source's `rounded < 1 && mantissa != 0` arm also returns the pair unchanged
  let finalMantissa := fe.1
  let finalExponent := fe.2
  let mantissaStr := fmtPrec finalMantissa mantissaPrecision locale.decimal_point
  let expSignStr :=
    if finalExponent < 0 then "-"
    else
      match sec.tokens.getD expTokenIdx (.LiteralChar ' ') with
      | .Exponential .plus => "+"
      | .Exponential .minus => ""
      | _ => ""  -- unreachable!() in the source: the caller found an Exponential there
  sign ++ mantissaStr ++ "E" ++ expSignStr
    ++ String.mk (padZeroLeft 2 (natToChars finalExponent.natAbs))

/-! ## Standard numeric renderer — `formatter/mod.rs` `format_value`

The imperative token walk is modelled as a fold over the token list carrying
the mutable locals as an explicit state.  The local
`temp_leading_int_digits_buffer` of the source is written by no statement
whatsoever (it is only tested and cleared), hence constantly empty; the dead
`if !buffer.is_empty()` blocks are elided. -/

/-- The rounding epsilon of `format_value` (`const EPSILON: f64 = 1e-9`). -/
def fvEpsilon : ℚ := 1 / 1000000000

/-- Repeated ×10 / truncate digit extraction (`format_value` lines 222-229):
returns the extracted digits and the final remaining fraction. -/
def extractDecimalDigits : Nat → ℚ → List ℤ × ℚ
  | 0, r => ([], r)
  | n + 1, r =>
    let r10 := r * 10
    let d := ratTrunc r10
    let (ds, rf) := extractDecimalDigits n (r10 - (d : ℚ))
    (d :: ds, rf)

/-- Carry propagation after incrementing the least significant digit, on the
reversed digit list; `none` means the carry leaves the most significant
fractional digit (the caller then re-formats `integer_part + 1`). -/
def carryPropagate : List ℤ → Option (List ℤ)
  | [] => none
  | d :: rest =>
    if 10 ≤ d + 1 then (carryPropagate rest).map fun r => (d + 1 - 10) :: r
    else some ((d + 1) :: rest)

/-- The rounding block of `format_value` (lines 232-261): `+1` on the last
digit, carries propagated toward the front. -/
def roundDecimalDigits (ds : List ℤ) : Option (List ℤ) :=
  (carryPropagate ds.reverse).map List.reverse

/-- Thousands grouping (lines 271-286): walk the digits from the right,
inserting the locale separator before every group of three. -/
def groupGo (sep : Char) : Nat → List Char → List Char
  | _, [] => []
  | i, c :: rest =>
    (if 0 < i ∧ i % 3 = 0 then [sep, c] else [c]) ++ groupGo sep (i + 1) rest

def applyGrouping (sep : Char) (ds : List Char) : List Char :=
  (groupGo sep 0 ds.reverse).reverse

/-- The loop-invariant inputs of the token walk. -/
structure FVCtx where
  tokens : List FormatToken
  isNegative : Bool
  usesParens : Bool
  integerPart : ℤ
  decimalDigits : List ℤ
  totalIntPh : Nat
  paddingLen : Nat
  rawIntLen : Nat
  locale : LocaleSettings

/-- The mutable locals of the token walk. -/
structure FVState where
  result : List Char
  iter : List Char
  signPrinted : Bool
  inDecimal : Bool
  fracPos : Nat
  curIdx : Nat
  actualPrinted : Bool

/-- Initial state: the (possibly separator-grouped) integer digits feed the
peekable iterator. -/
def fvInit (formattedInt : List Char) : FVState :=
  { result := [], iter := formattedInt, signPrinted := false, inDecimal := false,
    fracPos := 0, curIdx := 0, actualPrinted := false }

/-- Drain of remaining integer digits before a literal or quoted text
(lines 346-356): runs only once the integer placeholders are exhausted and
while still left of the decimal point; the sign check has no
`!actual_int_digit_printed` guard in this branch. -/
def fvDrainLit (ctx : FVCtx) (s : FVState) : FVState :=
  if s.iter ≠ [] ∧ ctx.totalIntPh ≤ s.curIdx ∧ ¬s.inDecimal then
    let needSign := ¬s.signPrinted ∧ ctx.isNegative ∧ ¬ctx.usesParens
    { s with result := s.result ++ (if needSign then ['-'] else []) ++ s.iter,
             iter := [],
             signPrinted := s.signPrinted ∨ needSign,
             actualPrinted := true }
  else s

/-- Unconditional drain of all remaining integer digits (decimal point,
percentage, and the post-loop flush): the sign is only emitted when no actual
integer digit was printed yet. -/
def fvDrainAll (ctx : FVCtx) (s : FVState) : FVState :=
  if s.iter ≠ [] then
    let needSign := ¬s.actualPrinted ∧ ¬s.signPrinted ∧ ctx.isNegative ∧ ¬ctx.usesParens
    { s with result := s.result ++ (if needSign then ['-'] else []) ++ s.iter,
             iter := [],
             signPrinted := s.signPrinted ∨ needSign,
             actualPrinted := true }
  else s

/-- One step of the token walk of `format_value` (lines 323-598). -/
def fvStep (ctx : FVCtx) (s : FVState) (t : FormatToken) : FVState :=
  match t with
  | .LiteralChar c =>
    if ¬s.signPrinted ∧ ctx.isNegative ∧ ctx.usesParens ∧ c = '(' then
      { s with result := s.result ++ ['('], signPrinted := true }
    else if ¬s.signPrinted ∧ ctx.isNegative ∧ ¬ctx.usesParens ∧ c = '-' then
      { s with result := s.result ++ ['-'], signPrinted := true }
    else
      let s := fvDrainLit ctx s
      { s with result := s.result ++ [c] }
  | .QuotedText text =>
    let s := fvDrainLit ctx s
    { s with result := s.result ++ text.data }
  | .DecimalPoint =>
    let needSign := ¬s.signPrinted ∧ ctx.isNegative ∧ ¬ctx.usesParens
    let s := { s with result := s.result ++ (if needSign then ['-'] else []),
                      signPrinted := s.signPrinted ∨ needSign }
    let s := fvDrainAll ctx s
    let s :=
      if ¬s.actualPrinted ∧ ctx.integerPart = 0 then
        let hasZeroPh :=
          (ctx.tokens.takeWhile fun tk => tk ≠ FormatToken.DecimalPoint).any
            fun tk => tk = FormatToken.DigitOrZero
        if hasZeroPh ∨ ctx.totalIntPh = 0 then
          let needSign2 := ¬s.signPrinted ∧ ctx.isNegative ∧ ¬ctx.usesParens
          { s with result := s.result ++ (if needSign2 then ['-'] else []) ++ ['0'],
                   signPrinted := s.signPrinted ∨ needSign2,
                   actualPrinted := true }
        else s
      else s
    { s with result := s.result ++ [ctx.locale.decimal_point], inDecimal := true }
  | .DigitOrZero | .DigitIfNeeded | .DigitOrSpace =>
    if ¬s.inDecimal then
      let needSign := ¬s.signPrinted ∧ ctx.isNegative ∧ ¬ctx.usesParens
      let s := { s with result := s.result ++ (if needSign then ['-'] else []),
                        signPrinted := s.signPrinted ∨ needSign }
      let pc : Option Char × Bool :=
        if s.curIdx < ctx.paddingLen then
          (match t with
           | .DigitOrZero => some '0'
           | .DigitOrSpace => some ' '
           | _ => none, false)
        else
          match s.iter with
          | dc :: _ =>
            (match t with
             | .DigitOrZero => some dc
             | .DigitOrSpace => some dc
             | _ =>  -- DigitIfNeeded: suppress a leading zero
               if s.actualPrinted ∨ dc ≠ '0'
                   ∨ (ctx.rawIntLen = 1 ∧ ctx.integerPart = 0) then some dc
               else none, true)
          | [] =>
            (match t with
             | .DigitOrZero => some '0'
             | .DigitOrSpace => some ' '
             | _ => none, false)
      let s :=
        match pc.1 with
        | some c =>
          { s with result := s.result ++ [c],
                   actualPrinted := s.actualPrinted
                     ∨ (pc.2 ∧ c.isDigit)
                     ∨ (t = FormatToken.DigitOrZero ∧ c = '0' ∧ s.curIdx < ctx.paddingLen) }
        | none => s
      let s := if pc.2 then { s with iter := s.iter.tail } else s
      { s with curIdx := s.curIdx + 1 }
    else
      if s.fracPos < ctx.decimalDigits.length then
        let digit := ctx.decimalDigits.getD s.fracPos 0
        match t with
        | .DigitIfNeeded =>
          if digit ≠ 0 ∨ s.fracPos < ctx.decimalDigits.length - 1 then
            { s with result := s.result ++ intToChars digit, fracPos := s.fracPos + 1 }
          else { s with fracPos := s.fracPos + 1 }
        | _ => { s with result := s.result ++ intToChars digit, fracPos := s.fracPos + 1 }
      else
        match t with
        | .DigitOrZero => { s with result := s.result ++ ['0'], fracPos := s.fracPos + 1 }
        | .DigitOrSpace => { s with result := s.result ++ [' '], fracPos := s.fracPos + 1 }
        | _ => { s with fracPos := s.fracPos + 1 }
  | .Percentage =>
    let needSign := ¬s.signPrinted ∧ ctx.isNegative ∧ ¬ctx.usesParens
    let s := { s with result := s.result ++ (if needSign then ['-'] else []),
                      signPrinted := s.signPrinted ∨ needSign }
    let s := fvDrainAll ctx s
    let s :=
      if ¬s.actualPrinted ∧ ctx.integerPart = 0 then
        let hasZeroPh :=
          ((ctx.tokens.takeWhile fun tk => tk ≠ FormatToken.Percentage).any
            fun tk => tk = FormatToken.DigitOrZero) ∧ ¬s.inDecimal
        if hasZeroPh ∨ ctx.totalIntPh = 0 then
          let needSign2 := ¬s.signPrinted ∧ ctx.isNegative ∧ ¬ctx.usesParens
          { s with result := s.result ++ (if needSign2 then ['-'] else []) ++ ['0'],
                   signPrinted := s.signPrinted ∨ needSign2,
                   actualPrinted := true }
        else s
      else s
    { s with result := s.result ++ ['%'] }
  | .ThousandsSeparator =>
    -- the separator itself is pre-woven into the digit iterator; only the
    -- sign code of this arm is live
    if ¬s.signPrinted ∧ ctx.isNegative ∧ ¬ctx.usesParens then
      { s with result := s.result ++ ['-'], signPrinted := true }
    else s
  | _ => s
    -- Fill, SkipWidth, Color, TextValue and date/time tokens produce nothing

/-- Tokens whose presence switches `format_value` out of text-only mode. -/
def isNumericModeToken (t : FormatToken) : Bool :=
  match t with
  | .DigitOrZero | .DigitIfNeeded | .DigitOrSpace | .DecimalPoint
  | .Percentage | .Exponential _ | .TextValue => true
  | _ => false

/-- The layout phase of `format_value` once the integer part and the (already
rounded) fractional digits are fixed: the token walk (`mod.rs` lines 263-598),
the final flush (606-613), the zero fix-up (619-629) and the parenthesis wrap
(632-635). -/
def fvAssemble (value : ℚ) (sec : FormatSection) (locale : LocaleSettings)
    (integerPart : ℤ) (decimalDigits : List ℤ) : String :=
  let isNegative := value < 0
  let usesParens := sec.tokens.any fun t =>
    t = FormatToken.LiteralChar '(' ∨ t = FormatToken.LiteralChar ')'
  let intDigits := intToChars integerPart
  let shouldApplySep := sec.tokens.any fun t => t = FormatToken.ThousandsSeparator
  let formattedInt :=
    if shouldApplySep ∧ intDigits ≠ [] then
      applyGrouping locale.thousands_separator intDigits
    else intDigits
  let totalIntPh :=
    (sec.tokens.takeWhile fun t => t ≠ FormatToken.DecimalPoint).countP
      fun t => isDigitPh t
  let rawIntLen := intDigits.length
  let ctx : FVCtx :=
    { tokens := sec.tokens, isNegative := isNegative, usesParens := usesParens,
      integerPart := integerPart, decimalDigits := decimalDigits,
      totalIntPh := totalIntPh, paddingLen := totalIntPh - rawIntLen,
      rawIntLen := rawIntLen, locale := locale }
  let s := sec.tokens.foldl (fvStep ctx) (fvInit formattedInt)
  -- final flush of undrained integer digits (lines 606-613)
  let s := fvDrainAll ctx s
  -- zero fix-up (lines 619-629)
  let s :=
    if ¬s.actualPrinted ∧ value = 0 ∧ ¬s.result.contains '-'
        ∧ ¬s.result.contains '(' then
      let isTextOnly := sec.tokens.all fun t =>
        match t with
        | .QuotedText _ | .LiteralChar _ => true
        | _ => false
      if ¬isTextOnly then { s with result := s.result ++ ['0'] } else s
    else s
  -- parenthesis wrap for negatives (lines 632-635)
  let finalResult :=
    if isNegative ∧ usesParens ∧ ¬s.signPrinted then
      '(' :: s.result ++ [')']
    else s.result
  String.mk finalResult

/-- The body of `format_value`, with the self-call of the carry-into-integer
case abstracted as `recurse` (the source recursion, `mod.rs` lines 244-255). -/
def formatValueBody (recurse : ℚ → String) (value : ℚ) (sec : FormatSection)
    (locale : LocaleSettings) : String :=
    let isTextOutputMode := ¬sec.tokens.any fun t => isNumericModeToken t
    if isTextOutputMode then
      String.mk (sec.tokens.flatMap fun t =>
        match t with
        | .LiteralChar c => [c]
        | .QuotedText text => text.data
        | _ => [])
    else
      let hasPercentage := sec.tokens.any fun t => t = FormatToken.Percentage
      let absValue := |value|
      let adjustedValue := if hasPercentage then absValue * 100 else absValue
      match sec.tokens.findIdx? (fun t => match t with | .Exponential _ => true | _ => false) with
      | some expIdx => format_exponential value sec expIdx locale
      | none =>
        let isNegative := value < 0
        let integerPart := ratTrunc adjustedValue
        let decimalPart := ratFract adjustedValue
        let decimalPlaces := fracPlaceholderCount sec.tokens
        let (digits0, remaining) := extractDecimalDigits decimalPlaces decimalPart
        let rounded : Option (List ℤ) :=
          if (1 / 2 - fvEpsilon : ℚ) ≤ remaining ∧ 0 < decimalPlaces ∧ digits0 ≠ [] then
            roundDecimalDigits digits0
          else some digits0
        match rounded with
        | none =>
          -- carry into the integer part: re-format the incremented integer
          recurse
            (if isNegative then -((integerPart : ℚ) + 1) else (integerPart : ℚ) + 1)
        | some decimalDigits =>
          fvAssemble value sec locale integerPart decimalDigits

/-- `format_value` as a fuelled recursion over `formatValueBody`; the source
recurses at most once (the recursive argument has zero fractional part), so
fuel 2 covers it. -/
def formatValueAux : Nat → ℚ → FormatSection → LocaleSettings → String
  | 0, _, _, _ => ""
  | fuel + 1, value, sec, locale =>
    formatValueBody (fun v2 => formatValueAux fuel v2 sec locale) value sec locale

/-- `format_value` — fuel 2 covers the at-most-once recursion. -/
def format_value (value : ℚ) (sec : FormatSection) (locale : LocaleSettings) : String :=
  formatValueAux 2 value sec locale

/-- `format_number` — the render entry point.  The source's first branch
(`value.is_nan() && format.text_section.is_some()`) concerns the float `NaN`,
which has no rational counterpart and is outside the model. -/
def format_number (value : ℚ) (format : NumberFormat) (locale : LocaleSettings) : String :=
  format_value value (select_section value format) locale

/-! ## Compiled formats used by the claims -/

/-- The compiled form of a format string (the claims only use strings that
compile; the `getD` default is never reached on them, as the accompanying
`parse_number_format … = .ok …` equations show). -/
def compileD (s : String) : NumberFormat :=
  (parse_number_format s).toOption.getD generalNumberFormat

def fmt00 : NumberFormat := compileD "0.00"

def fmtDate : NumberFormat := compileD "yyyy-mm-dd"

def fmtFrac : NumberFormat := compileD "# ?/?"

def fmtComma : NumberFormat := compileD "0,"

def fmtEp : NumberFormat := compileD "0.00E+00"

def fmtEm : NumberFormat := compileD "0.00E-00"

def fmtParen : NumberFormat := compileD "(0.00)"

/-! ## Claim C1 — Excel 1900 leap-bug dates -/

/-- Claim C1 (code evaluation at the failing inputs): the live render path has
no date renderer — `formatter/mod.rs` declares none of the datetime modules —
so `format_value` treats the compiled `yyyy-mm-dd` section (no numeric-class
token) as text-only output and emits just the two literal dashes, for all
three serials; the claimed calendar strings are not produced.  The repo's own
integration test `tests/datetime_tests.rs` (lines 240-245) expects
`1900-02-29` / `1900-02-28` / `1900-03-01` here. -/
theorem c1_serial60_renders_dashes :
    parse_number_format "yyyy-mm-dd" = .ok fmtDate
    ∧ fmtDate.positive_section.tokens =
        [.YearFourDigit, .LiteralChar '-', .MonthNumPadded, .LiteralChar '-', .DayNumPadded]
    ∧ format_number 60 fmtDate defaultLocale = "--"
    ∧ format_number 59 fmtDate defaultLocale = "--"
    ∧ format_number 61 fmtDate defaultLocale = "--"
    ∧ ("--" : String) ≠ "1900-02-29" := by
  exact ⟨by decide, by decide, by decide, by decide, by decide, by decide⟩

/-! ## Claim C5 — scaling commas -/

/-- Claim C5 (code evaluation at the failing input): the parser side holds —
`parse_one_section` counts the trailing comma of `0,` into
`num_scaling_commas` and removes it from the token list — but the live
`format_value` never reads `num_scaling_commas` and performs no division by
1000, so `12345` renders as `"12345"`, not the `"12"` the claim (and the
repo's `tests/formatter_tests.rs` `test_scaling_commas`) expects. -/
theorem c5_scaling_comma_parsed_but_not_applied :
    parse_number_format "0," = .ok fmtComma
    ∧ fmtComma.positive_section.num_scaling_commas = 1
    ∧ fmtComma.positive_section.tokens = [.DigitOrZero]
    ∧ format_number 12345 fmtComma defaultLocale = "12345"
    ∧ ("12345" : String) ≠ "12" := by
  exact ⟨by decide, by decide, by decide, by decide, by decide⟩

/-! ## Claim C6 — fraction rendering -/

/-- Claim C6 (code evaluation at the failing input): the parser detects the
fraction pattern of `# ?/?` (`has_fraction = true`, slash kept as a literal),
but the live render path has no fraction renderer — `formatter/fraction/*` is
not part of the crate's module tree — and `format_value` lays the tokens out
as a plain numeric pattern, yielding `"  /5"` for `5.25` instead of the
claimed `"5 1/4"` (which the repo's `tests/fractions.rs` expects). -/
theorem c6_fraction_format_renders_no_fraction :
    parse_number_format "# ?/?" = .ok fmtFrac
    ∧ fmtFrac.positive_section.has_fraction = true
    ∧ fmtFrac.positive_section.tokens =
        [.DigitIfNeeded, .LiteralChar ' ', .DigitOrSpace, .LiteralChar '/', .DigitOrSpace]
    ∧ format_number 5.25 fmtFrac defaultLocale = "  /5"
    ∧ ("  /5" : String) ≠ "5 1/4" := by
  exact ⟨by decide, by decide, by decide, by decide, by decide⟩

/-! ## Claim C3 — section-selection order -/

/-- "No condition matched": the positive section's condition is absent or
unsatisfied, and likewise for the negative and zero sections. -/
def noConditionMatched (v : ℚ) (f : NumberFormat) : Prop :=
  condHolds f.positive_section.condition v = false
  ∧ (∀ ns, f.negative_section = some ns → condHolds ns.condition v = false)
  ∧ (∀ zs, f.zero_section = some zs → condHolds zs.condition v = false)

/-- When no condition matches, `select_section` reduces to the sign-based
fallback. -/
theorem select_eq_fallback (v : ℚ) (f : NumberFormat) (h : noConditionMatched v f) :
    select_section v f = selectFallback v f := by
  obtain ⟨hpos, hnegAll, hzeroAll⟩ := h
  simp only [select_section, hpos, Bool.false_eq_true, if_false]
  unfold selectNegCond
  cases hneg : f.negative_section with
  | none =>
    unfold selectZeroCond
    cases hzero : f.zero_section with
    | none => rfl
    | some zs => simp [hzeroAll zs hzero]
  | some ns =>
    simp only [hnegAll ns hneg, Bool.false_eq_true, if_false]
    unfold selectZeroCond
    cases hzero : f.zero_section with
    | none => rfl
    | some zs => simp [hzeroAll zs hzero]

/-- Claim C3: conditions are evaluated in the fixed order positive, negative,
zero, and the first present-and-satisfied one wins — in particular a
conditioned positive section wins regardless of the sign of `v`.  When none
matched, an unconditioned negative section is used for `v < 0`, else an
unconditioned zero section for `v = 0`, else the positive section. -/
theorem c3_section_selection_order (v : ℚ) (f : NumberFormat) :
    (condHolds f.positive_section.condition v = true →
        select_section v f = f.positive_section)
    ∧ (∀ ns, condHolds f.positive_section.condition v = false →
        f.negative_section = some ns → condHolds ns.condition v = true →
        select_section v f = ns)
    ∧ (∀ zs, condHolds f.positive_section.condition v = false →
        (∀ ns, f.negative_section = some ns → condHolds ns.condition v = false) →
        f.zero_section = some zs → condHolds zs.condition v = true →
        select_section v f = zs)
    ∧ (noConditionMatched v f → v < 0 →
        ∀ ns, f.negative_section = some ns → ns.condition = none →
        select_section v f = ns)
    ∧ (noConditionMatched v f → ¬v < 0 → v = 0 →
        ∀ zs, f.zero_section = some zs → zs.condition = none →
        select_section v f = zs)
    ∧ (noConditionMatched v f →
        (v < 0 → ∀ ns, f.negative_section = some ns → ns.condition ≠ none) →
        (v = 0 → ∀ zs, f.zero_section = some zs → zs.condition ≠ none) →
        select_section v f = f.positive_section) := by
  refine ⟨?_, ?_, ?_, ?_, ?_, ?_⟩
  · intro h
    simp [select_section, h]
  · intro ns hpos hns hcond
    simp [select_section, hpos, selectNegCond, hns, hcond]
  · intro zs hpos hnegAll hzs hcond
    simp only [select_section, hpos, Bool.false_eq_true, if_false]
    unfold selectNegCond
    cases hneg : f.negative_section with
    | none => simp [selectZeroCond, hzs, hcond]
    | some ns => simp [hnegAll ns hneg, selectZeroCond, hzs, hcond]
  · intro h hv ns hns hcondnone
    rw [select_eq_fallback v f h]
    simp [selectFallback, hv, hns, hcondnone]
  · intro h hvneg hv0 zs hzs hcondnone
    rw [select_eq_fallback v f h]
    simp [selectFallback, hvneg, hv0, hzs, hcondnone]
  · intro h hnegU hzeroU
    rw [select_eq_fallback v f h]
    unfold selectFallback
    by_cases hv : v < 0
    · cases hneg : f.negative_section with
      | none => simp [hv]
      | some ns => simp [hv, hnegU hv ns hneg]
    · by_cases hv0 : v = 0
      · cases hzero : f.zero_section with
        | none => simp [hv, hv0]
        | some zs => simp [hv, hv0, hzeroU hv0 zs hzero]
      · simp [hv, hv0]

/-- A format whose positive section carries the condition `[<0]` and which
also has an unconditioned negative section: used to witness that a satisfied
positive-section condition wins even for a negative value. -/
def c3CondFmt : NumberFormat :=
  { positive_section := { condition := some ⟨.lt, 0⟩, tokens := [.DigitOrZero] },
    negative_section := some { tokens := [.LiteralChar '-', .DigitOrZero] } }

/-- A conditionless two-section format, for the sign fallback. -/
def c3PlainFmt : NumberFormat :=
  { positive_section := { tokens := [.DigitOrZero] },
    negative_section := some { tokens := [.LiteralChar '-', .DigitOrZero] } }

/-- Witness for C3: at `v = -5` the conditioned positive section of
`c3CondFmt` wins despite the sign, and at `v = -3` the unconditioned negative
section of `c3PlainFmt` is chosen by the fallback. -/
theorem c3_section_selection_order_witness :
    select_section (-5) c3CondFmt = c3CondFmt.positive_section
    ∧ select_section (-3) c3PlainFmt = { tokens := [.LiteralChar '-', .DigitOrZero] } :=
  ⟨(c3_section_selection_order (-5) c3CondFmt).1 (by decide),
   (c3_section_selection_order (-3) c3PlainFmt).2.2.2.1
     ⟨by decide,
      fun ns h => by injection h with h; subst h; decide,
      fun zs h => by simp [c3PlainFmt] at h⟩
     (by norm_num)
     { tokens := [.LiteralChar '-', .DigitOrZero] } rfl rfl⟩

/-! ## Claims C9 and C10 — compile-time invariants -/

/-- The ambiguity resolver leaves no `MonthOrMinute*` token: every position is
either rewritten to a month/minute token or was not ambiguous to begin with. -/
theorem resolve_no_mom (ts : List FormatToken) (t : FormatToken)
    (h : t ∈ resolve_month_minute_ambiguity_in_section ts) :
    t ≠ .MonthOrMinute1 ∧ t ≠ .MonthOrMinute2 := by
  unfold resolve_month_minute_ambiguity_in_section at h
  obtain ⟨i, hi, rfl⟩ := List.mem_map.mp h
  unfold resolveTokenAt
  split
  · split <;> exact ⟨by simp, by simp⟩
  · split <;> exact ⟨by simp, by simp⟩
  · rename_i h1 h2
    exact ⟨h1, h2⟩

/-- All sections of a format, in order. -/
def formatSections (f : NumberFormat) : List FormatSection :=
  f.positive_section ::
    (f.negative_section.toList ++ f.zero_section.toList ++ f.text_section.toList)

/-- What a successful `validateAndAssemble` guarantees: condition count at
most two, an unconditioned text section, and every section's token list is an
output of the ambiguity resolver. -/
theorem validate_ok_inv (pos0 : FormatSection) (negO zeroO textO : Option FormatSection)
    (f : NumberFormat) (h : validateAndAssemble pos0 negO zeroO textO = .ok f) :
    conditionedSectionCount f ≤ 2
    ∧ (∀ ts, f.text_section = some ts → ts.condition = none)
    ∧ (∀ sec ∈ formatSections f, ∃ ts0,
        sec.tokens = resolve_month_minute_ambiguity_in_section ts0) := by
  simp only [validateAndAssemble] at h
  split at h
  · simp at h
  · rename_i htext
    split at h
    · simp at h
    · split at h
      · simp at h
      · rename_i hcount hnum
        injection h with h
        subst h
        refine ⟨by omega, ?_, ?_⟩
        · intro ts hts
          cases textO with
          | none => simp at hts
          | some t0 =>
            simp only [Option.map_some', Option.some.injEq] at hts
            subst hts
            simp only [Option.map_some', Option.getD_some] at htext
            exact Option.not_isSome_iff_eq_none.mp (by simpa using htext)
        · intro sec hsec
          simp only [formatSections, List.mem_cons, List.mem_append] at hsec
          rcases hsec with rfl | (hsec | hsec) | hsec
          · exact ⟨pos0.tokens, rfl⟩
          · cases negO with
            | none => simp at hsec
            | some ns =>
              simp only [Option.map_some', Option.toList_some, List.mem_singleton] at hsec
              subst hsec
              exact ⟨ns.tokens, rfl⟩
          · cases zeroO with
            | none => simp at hsec
            | some zs =>
              simp only [Option.map_some', Option.toList_some, List.mem_singleton] at hsec
              subst hsec
              exact ⟨zs.tokens, rfl⟩
          · cases textO with
            | none => simp at hsec
            | some xs =>
              simp only [Option.map_some', Option.toList_some, List.mem_singleton] at hsec
              subst hsec
              exact ⟨xs.tokens, rfl⟩

/-- A successful compile is either the synthetic `General` format or passed
`validateAndAssemble`. -/
theorem parse_ok_inv (s : String) (f : NumberFormat)
    (h : parse_number_format s = .ok f) :
    f = generalNumberFormat
    ∨ (conditionedSectionCount f ≤ 2
       ∧ (∀ ts, f.text_section = some ts → ts.condition = none)
       ∧ (∀ sec ∈ formatSections f, ∃ ts0,
            sec.tokens = resolve_month_minute_ambiguity_in_section ts0)) := by
  unfold parse_number_format at h
  split at h
  · injection h with h
    exact Or.inl h.symm
  · split at h
    · simp at h
    · split at h
      · simp at h
      · split at h
        · simp at h
        · split at h
          · simp at h
          · split at h
            · simp at h
            · exact Or.inr (validate_ok_inv _ _ _ _ _ h)

/-- Claim C9: compilation enforces at most two conditioned sections (a third
condition is a descriptive error), and no successfully compiled format has a
conditioned text section; a condition written before the fourth section does
not even tokenize, so it too is a compile error. -/
theorem c9_condition_validation :
    (∀ s f, parse_number_format s = .ok f →
        conditionedSectionCount f ≤ 2
        ∧ ∀ ts, f.text_section = some ts → ts.condition = none)
    ∧ parse_number_format "[>1]0;[>2]0;[>3]0" =
        .error "Format string cannot have more than two conditional sections"
    ∧ parse_number_format ";;;[>5]@" = .error "Parse error in text section" := by
  refine ⟨?_, by decide, by decide⟩
  intro s f h
  rcases parse_ok_inv s f h with rfl | ⟨h1, h2, _⟩
  · exact ⟨by decide, fun ts hts => by injection hts with hts; subst hts; rfl⟩
  · exact ⟨h1, h2⟩

/-- Witness for C9 at the format `0.00`. -/
theorem c9_condition_validation_witness :
    conditionedSectionCount fmt00 ≤ 2 :=
  (c9_condition_validation.1 "0.00" fmt00 (by decide)).1

/-- Claim C10: after a successful compile no `MonthOrMinute1` or
`MonthOrMinute2` token remains in any section's token list — every section
went through the ambiguity resolver (`format.rs` lines 119-128). -/
theorem c10_no_month_or_minute_after_compile (s : String) (f : NumberFormat)
    (h : parse_number_format s = .ok f) :
    ∀ sec ∈ formatSections f, ∀ t ∈ sec.tokens,
      t ≠ .MonthOrMinute1 ∧ t ≠ .MonthOrMinute2 := by
  rcases parse_ok_inv s f h with rfl | ⟨_, _, hres⟩
  · decide
  · intro sec hsec t ht
    obtain ⟨ts0, hts⟩ := hres sec hsec
    exact resolve_no_mom ts0 t (hts ▸ ht)

/-- Witness for C10: the ambiguous `mm` of `yyyy-mm-dd` came out of
compilation as `MonthNumPadded`, and the theorem applies to it. -/
theorem c10_no_month_or_minute_after_compile_witness :
    parse_number_format "yyyy-mm-dd" = .ok fmtDate
    ∧ (FormatToken.MonthNumPadded ≠ FormatToken.MonthOrMinute1
       ∧ FormatToken.MonthNumPadded ≠ FormatToken.MonthOrMinute2) :=
  ⟨by decide,
   c10_no_month_or_minute_after_compile "yyyy-mm-dd" fmtDate (by decide)
     fmtDate.positive_section (by decide) .MonthNumPadded (by decide)⟩


/-! ## Claim C2 — rendering through `0.00`

The closed form: the output is the sign, then the decimal rendering with
exactly two fractional digits of the half-away-from-zero rounding of `100·|v|`
(with the `1e-9` tie guard), divided by 100. -/

theorem natToCharsAux_eq_nil (fuel n : ℕ) (acc : List Char)
    (h : natToCharsAux fuel n acc = []) : fuel = 0 ∧ acc = [] := by
  induction fuel generalizing n acc with
  | zero => exact ⟨rfl, h⟩
  | succ fuel ih =>
    unfold natToCharsAux at h
    split at h
    · simp at h
    · obtain ⟨h1, h2⟩ := ih _ _ h
      simp at h2

theorem natToChars_ne_nil (n : ℕ) : natToChars n ≠ [] := by
  intro h
  exact absurd (natToCharsAux_eq_nil _ _ _ h).1 (by simp [Nat.succ_ne_zero])

theorem natToCharsAux_mem (fuel n : ℕ) (acc : List Char) (c : Char)
    (h : c ∈ natToCharsAux fuel n acc) :
    c ∈ acc ∨ ∃ m, m < 10 ∧ c = Char.ofNat (48 + m) := by
  induction fuel generalizing n acc with
  | zero => exact Or.inl h
  | succ fuel ih =>
    unfold natToCharsAux at h
    split at h
    · rename_i hn
      rcases List.mem_cons.mp h with rfl | hmem
      · exact Or.inr ⟨n, hn, rfl⟩
      · exact Or.inl hmem
    · rcases ih _ _ h with hmem | hdig
      · rcases List.mem_cons.mp hmem with rfl | hmem2
        · exact Or.inr ⟨n % 10, Nat.mod_lt _ (by norm_num), rfl⟩
        · exact Or.inl hmem2
      · exact Or.inr hdig

theorem digitChar_isDigit (m : ℕ) (hm : m < 10) : (Char.ofNat (48 + m)).isDigit = true := by
  interval_cases m <;> decide

theorem natToChars_mem_isDigit (n : ℕ) (c : Char) (h : c ∈ natToChars n) :
    c.isDigit = true := by
  rcases natToCharsAux_mem _ _ _ _ h with hmem | ⟨m, hm, rfl⟩
  · simp at hmem
  · exact digitChar_isDigit m hm

theorem natToChars_small (n : ℕ) (h : n < 10) : natToChars n = [Char.ofNat (48 + n)] := by
  unfold natToChars natToCharsAux
  simp [h]

theorem natToChars_two_digit (a b : ℕ) (ha0 : 0 < a) (ha : a < 10) (hb : b < 10) :
    natToChars (10 * a + b) = [Char.ofNat (48 + a), Char.ofNat (48 + b)] := by
  unfold natToChars
  have hn : ¬(10 * a + b < 10) := by omega
  conv_lhs => rw [natToCharsAux]
  simp only [hn, if_false]
  have hdiv : (10 * a + b) / 10 = a := by omega
  have hmod : (10 * a + b) % 10 = b := by omega
  rw [hdiv, hmod]
  -- remaining fuel is (10*a+b), which is ≥ 1
  have hfuel : ∃ k, 10 * a + b = k + 1 := ⟨10 * a + b - 1, by omega⟩
  obtain ⟨k, hk⟩ := hfuel
  rw [hk]
  rw [natToCharsAux]
  simp [ha]

theorem pad2_digits (a b : ℕ) (ha : a < 10) (hb : b < 10) :
    padZeroLeft 2 (natToChars (10 * a + b)) = [Char.ofNat (48 + a), Char.ofNat (48 + b)] := by
  rcases Nat.eq_zero_or_pos a with rfl | ha0
  · simp only [Nat.mul_zero, Nat.zero_add]
    rw [natToChars_small b hb]
    simp [padZeroLeft]
  · rw [natToChars_two_digit a b ha0 ha hb]
    simp [padZeroLeft]

theorem intToChars_digit (d : ℤ) (h0 : 0 ≤ d) (h9 : d ≤ 9) :
    intToChars d = [Char.ofNat (48 + d.toNat)] := by
  unfold intToChars
  rw [if_neg (by omega)]
  exact natToChars_small d.toNat (by omega)

def sec00 : FormatSection :=
  { tokens := [.DigitOrZero, .DecimalPoint, .DigitOrZero, .DigitOrZero],
    num_integer_part_tokens := 1, num_fractional_part_tokens := 2 }

theorem fmt00_explicit : fmt00 = { positive_section := sec00 } := by decide

theorem select00 (v : ℚ) : select_section v fmt00 = sec00 := by
  rw [fmt00_explicit]
  by_cases h : v < 0 <;> by_cases h2 : v = 0 <;>
    simp [select_section, condHolds, selectNegCond, selectZeroCond, selectFallback, h, h2]

theorem extract2 (f : ℚ) (hf : 0 ≤ f) :
    extractDecimalDigits 2 f =
      ([⌊f * 10⌋, ⌊Int.fract (f * 10) * 10⌋], Int.fract (Int.fract (f * 10) * 10)) := by
  have t1 : ratTrunc (f * 10) = ⌊f * 10⌋ := by
    unfold ratTrunc
    rw [if_pos (by positivity)]
  have h2 : (0:ℚ) ≤ Int.fract (f * 10) := Int.fract_nonneg _
  have t2 : ratTrunc (Int.fract (f * 10) * 10) = ⌊Int.fract (f * 10) * 10⌋ := by
    unfold ratTrunc
    rw [if_pos (by positivity)]
  show extractDecimalDigits (1+1) f = _
  rw [extractDecimalDigits, extractDecimalDigits, extractDecimalDigits]
  simp only [t1]
  rw [show f * 10 - (⌊f * 10⌋ : ℚ) = Int.fract (f * 10) from rfl]
  simp only [t2]
  rw [show Int.fract (f * 10) * 10 - (⌊Int.fract (f * 10) * 10⌋ : ℚ)
        = Int.fract (Int.fract (f * 10) * 10) from rfl]

theorem walk_sec00 (ctx : FVCtx)
    (hpar : ctx.usesParens = false)
    (hpad : ctx.paddingLen = 0)
    (e1 e2 : ℤ) (hdd : ctx.decimalDigits = [e1, e2])
    (ds : List Char) (hds : ds ≠ []) (hdig : ∀ c ∈ ds, c.isDigit = true) :
    List.foldl (fvStep ctx) (fvInit ds) sec00.tokens =
      ⟨(if ctx.isNegative then ['-'] else []) ++ ds
          ++ ctx.locale.decimal_point :: (intToChars e1 ++ intToChars e2),
       [], ctx.isNegative, true, 2, 1, true⟩ := by
  obtain ⟨c, cs, rfl⟩ := List.exists_cons_of_ne_nil hds
  have hcdig : c.isDigit = true := hdig c (List.mem_cons_self _ _)
  show List.foldl (fvStep ctx) (fvInit (c :: cs))
      [.DigitOrZero, .DecimalPoint, .DigitOrZero, .DigitOrZero] = _
  simp only [List.foldl]
  have s1 : fvStep ctx (fvInit (c :: cs)) .DigitOrZero =
      ⟨(if ctx.isNegative then ['-'] else []) ++ [c], cs, ctx.isNegative,
       false, 0, 1, true⟩ := by
    simp only [fvStep, fvInit, hpad, hpar]
    cases hneg : ctx.isNegative <;> simp [hcdig]
  rw [s1]
  have s2 : fvStep ctx ⟨(if ctx.isNegative then ['-'] else []) ++ [c], cs,
        ctx.isNegative, false, 0, 1, true⟩ .DecimalPoint =
      ⟨(if ctx.isNegative then ['-'] else []) ++ (c :: cs)
          ++ [ctx.locale.decimal_point], [], ctx.isNegative, true, 0, 1, true⟩ := by
    simp only [fvStep, fvDrainAll]
    cases hneg : ctx.isNegative <;> rcases cs with _ | ⟨c2, cs2⟩ <;> simp
  rw [s2]
  have s3 : ∀ (res : List Char) (fp : ℕ), fp < 2 →
      fvStep ctx ⟨res, [], ctx.isNegative, true, fp, 1, true⟩ .DigitOrZero =
      ⟨res ++ intToChars (ctx.decimalDigits.getD fp 0), [], ctx.isNegative,
       true, fp + 1, 1, true⟩ := by
    intro res fp hfp
    have hlen : fp < ctx.decimalDigits.length := by rw [hdd]; simpa using hfp
    simp [fvStep, hlen]
  rw [s3 _ 0 (by norm_num), s3 _ 1 (by norm_num)]
  simp [hdd]

theorem ratFract_of_nonneg (q : ℚ) (h : 0 ≤ q) : ratFract q = Int.fract q := by
  unfold ratFract ratTrunc
  rw [if_pos h]
  rfl

theorem roundDD_pair (d1 d2 : ℤ) :
    roundDecimalDigits [d1, d2] =
      if 10 ≤ d2 + 1 then
        (if 10 ≤ d1 + 1 then none else some [d1 + 1, d2 + 1 - 10])
      else some [d1, d2 + 1] := by
  have e1 : carryPropagate [d1] = if 10 ≤ d1 + 1 then none else some [d1 + 1] := by
    rw [carryPropagate]
    by_cases h : 10 ≤ d1 + 1
    · rw [if_pos h, if_pos h, show carryPropagate [] = none from rfl, Option.map_none']
    · rw [if_neg h, if_neg h]
  have e2 : carryPropagate [d2, d1] =
      if 10 ≤ d2 + 1 then (carryPropagate [d1]).map (fun r => (d2 + 1 - 10) :: r)
      else some [d2 + 1, d1] := by
    rw [carryPropagate]
  unfold roundDecimalDigits
  show (carryPropagate [d2, d1]).map List.reverse = _
  rw [e2, e1]
  by_cases h2 : 10 ≤ d2 + 1
  · rw [if_pos h2, if_pos h2]
    by_cases h1 : 10 ≤ d1 + 1
    · rw [if_pos h1, if_pos h1, Option.map_none', Option.map_none']
    · rw [if_neg h1, if_neg h1, Option.map_some', Option.map_some']
      rfl
  · rw [if_neg h2, if_neg h2, Option.map_some']
    rfl

theorem natToChars_length_pos (n : ℕ) : 0 < (natToChars n).length :=
  List.length_pos.mpr (natToChars_ne_nil n)

theorem fvAssemble_sec00 (v : ℚ) (loc : LocaleSettings) (n : ℤ) (hn : 0 ≤ n)
    (e1 e2 : ℤ) :
    fvAssemble v sec00 loc n [e1, e2] =
      String.mk ((if v < 0 then ['-'] else []) ++ natToChars n.toNat
        ++ loc.decimal_point :: (intToChars e1 ++ intToChars e2)) := by
  have hint : intToChars n = natToChars n.toNat := by
    unfold intToChars
    rw [if_neg (by omega)]
  have hsep : (sec00.tokens.any fun t => decide (t = FormatToken.ThousandsSeparator)) = false := by
    decide
  simp only [fvAssemble, hint]
  rw [show (if (sec00.tokens.any fun t => decide (t = FormatToken.ThousandsSeparator)) = true
          ∧ natToChars n.toNat ≠ ([] : List Char) then
        applyGrouping loc.thousands_separator (natToChars n.toNat)
      else natToChars n.toNat) = natToChars n.toNat from by rw [hsep]; simp]
  rw [walk_sec00 _
      (by decide :
        (sec00.tokens.any fun t => decide (t = FormatToken.LiteralChar '('
          ∨ t = FormatToken.LiteralChar ')')) = false)
      ?hpad e1 e2 rfl _ (natToChars_ne_nil _)
      (fun c hc => natToChars_mem_isDigit _ c hc)]
  case hpad =>
    show List.countP _ _ - (natToChars n.toNat).length = 0
    have h1 : List.countP (fun t => isDigitPh t)
        (List.takeWhile (fun t => decide (t ≠ FormatToken.DecimalPoint)) sec00.tokens) = 1 := by
      decide
    rw [h1]
    have := natToChars_length_pos n.toNat
    omega
  · by_cases hv : v < 0 <;>
      simp [fvDrainAll, hv,
        show (sec00.tokens.any fun t => decide (t = FormatToken.LiteralChar '('
          ∨ t = FormatToken.LiteralChar ')')) = false from by decide]

theorem body_sec00 (recurse : ℚ → String) (v : ℚ) (loc : LocaleSettings) :
    formatValueBody recurse v sec00 loc =
      match (if (1/2 - fvEpsilon : ℚ) ≤ Int.fract (Int.fract (Int.fract |v| * 10) * 10)
             then roundDecimalDigits [⌊Int.fract |v| * 10⌋, ⌊Int.fract (Int.fract |v| * 10) * 10⌋]
             else some [⌊Int.fract |v| * 10⌋, ⌊Int.fract (Int.fract |v| * 10) * 10⌋]) with
      | none => recurse (if v < 0 then -((⌊|v|⌋ : ℚ) + 1) else (⌊|v|⌋ : ℚ) + 1)
      | some ds => fvAssemble v sec00 loc ⌊|v|⌋ ds := by
  have habs : (0:ℚ) ≤ |v| := abs_nonneg v
  have htrunc : ratTrunc |v| = ⌊|v|⌋ := if_pos habs
  have hfract : ratFract |v| = Int.fract |v| := ratFract_of_nonneg _ habs
  simp only [formatValueBody]
  rw [if_neg (by decide)]
  simp only [show (sec00.tokens.any fun t => t = FormatToken.Percentage) = false from by decide,
    Bool.false_eq_true, if_false,
    show sec00.tokens.findIdx? (fun t => match t with | .Exponential _ => true | _ => false)
      = none from by decide]
  simp only [htrunc, hfract, show fracPlaceholderCount sec00.tokens = 2 from by decide]
  rw [extract2 _ (Int.fract_nonneg _)]
  simp only [show ∀ (A : Prop),
      (A ∧ 0 < (2:ℕ) ∧ ([⌊Int.fract |v| * 10⌋, ⌊Int.fract (Int.fract |v| * 10) * 10⌋] : List ℤ) ≠ [])
        ↔ A from fun A => by simp]

def round2Spec (a : ℚ) : ℤ :=
  if 1/2 - fvEpsilon ≤ Int.fract (a * 100) then ⌊a * 100⌋ + 1 else ⌊a * 100⌋

def showDec2 (q : ℤ) : String :=
  String.mk (natToChars (q.toNat / 100) ++ '.' :: padZeroLeft 2 (natToChars (q.toNat % 100)))

-- arithmetic bridge lemmas
theorem fract_digits_r2 (a : ℚ) :
    Int.fract (Int.fract (Int.fract a * 10) * 10) = Int.fract (a * 100) := by
  have h1 : Int.fract (Int.fract a * 10) * 10 = a * 100 - (⌊a⌋ * 100 + ⌊Int.fract a * 10⌋ * 10) := by
    unfold Int.fract
    push_cast
    ring
  rw [h1]
  have : a * 100 - ((⌊a⌋ : ℚ) * 100 + (⌊Int.fract a * 10⌋ : ℚ) * 10)
      = a * 100 - ((⌊a⌋ * 100 + ⌊Int.fract a * 10⌋ * 10 : ℤ) : ℚ) := by
    push_cast
    ring
  rw [this, Int.fract_sub_int]

theorem floor_a100 (a : ℚ) :
    ⌊a * 100⌋ = 100 * ⌊a⌋ + 10 * ⌊Int.fract a * 10⌋ + ⌊Int.fract (Int.fract a * 10) * 10⌋ := by
  have h1 : a * 100 = Int.fract (Int.fract a * 10) * 10
      + ((100 * ⌊a⌋ + 10 * ⌊Int.fract a * 10⌋ : ℤ) : ℚ) := by
    unfold Int.fract
    push_cast
    ring
  rw [h1, Int.floor_add_int]
  ring

theorem floor_mul10_bounds (x : ℚ) (h0 : 0 ≤ x) (h1 : x < 1) :
    0 ≤ ⌊x * 10⌋ ∧ ⌊x * 10⌋ ≤ 9 := by
  constructor
  · exact Int.floor_nonneg.mpr (by positivity)
  · have h2 : ⌊x * 10⌋ < 10 := by
      apply Int.floor_lt.mpr
      push_cast
      nlinarith
    omega

theorem string_append_mk (a b : List Char) :
    String.mk a ++ String.mk b = String.mk (a ++ b) := rfl

theorem c2_closed_form (v : ℚ) :
    format_number v fmt00 defaultLocale =
      (if v < 0 then "-" else "") ++ showDec2 (round2Spec |v|) := by
  have hsel : select_section v fmt00 = sec00 := select00 v
  have hfmt : format_number v fmt00 defaultLocale
      = formatValueBody (fun v2 => formatValueAux 1 v2 sec00 defaultLocale) v sec00 defaultLocale := by
    unfold format_number format_value
    rw [hsel]
    rfl
  rw [hfmt, body_sec00]
  set a := |v| with ha
  have habs : (0:ℚ) ≤ a := abs_nonneg v
  have hn : 0 ≤ ⌊a⌋ := Int.floor_nonneg.mpr habs
  set n := ⌊a⌋ with hndef
  set f := Int.fract a with hfdef
  have hf0 : 0 ≤ f := Int.fract_nonneg a
  have hf1 : f < 1 := Int.fract_lt_one a
  obtain ⟨hd1a, hd1b⟩ := floor_mul10_bounds f hf0 hf1
  obtain ⟨hd2a, hd2b⟩ := floor_mul10_bounds (Int.fract (f * 10)) (Int.fract_nonneg _) (Int.fract_lt_one _)
  set d1 := ⌊f * 10⌋ with hd1def
  set d2 := ⌊Int.fract (f * 10) * 10⌋ with hd2def
  have hr2 : Int.fract (Int.fract (f * 10) * 10) = Int.fract (a * 100) := fract_digits_r2 a
  have hq : ⌊a * 100⌋ = 100 * n + 10 * d1 + d2 := floor_a100 a
  rw [hr2]
  by_cases htie : (1/2 - fvEpsilon : ℚ) ≤ Int.fract (a * 100)
  · rw [if_pos htie, roundDD_pair]
    by_cases hc2 : 10 ≤ d2 + 1
    · by_cases hc1 : 10 ≤ d1 + 1
      · -- carry into the integer part
        rw [if_pos hc2, if_pos hc1]
        show formatValueAux 1 _ sec00 defaultLocale = _
        have hd19 : d1 = 9 := by omega
        have hd29 : d2 = 9 := by omega
        have hv2 : (if v < 0 then -((n:ℚ) + 1) else (n:ℚ) + 1)
            = (if v < 0 then -(((n+1 : ℤ) : ℚ)) else ((n+1 : ℤ) : ℚ)) := by
          by_cases hv : v < 0 <;> simp [hv]
        rw [hv2]
        rw [show ∀ w, formatValueAux 1 w sec00 defaultLocale
            = formatValueBody (fun v2 => formatValueAux 0 v2 sec00 defaultLocale) w sec00 defaultLocale
          from fun w => rfl]
        rw [body_sec00]
        have hposQ : (0:ℚ) ≤ ((n+1 : ℤ) : ℚ) := by
          exact_mod_cast (by omega : (0:ℤ) ≤ n + 1)
        have hposQ' : (0:ℚ) < ((n+1 : ℤ) : ℚ) := by
          exact_mod_cast (by omega : (0:ℤ) < n + 1)
        have habs2 : |if v < 0 then -(((n+1 : ℤ) : ℚ)) else ((n+1 : ℤ) : ℚ)| = ((n+1 : ℤ) : ℚ) := by
          by_cases hv : v < 0
          · rw [if_pos hv, abs_neg, abs_of_nonneg hposQ]
          · rw [if_neg hv, abs_of_nonneg hposQ]
        rw [habs2]
        rw [Int.fract_intCast]
        have hz0 : ((0:ℚ) * 10) = 0 := by ring
        rw [hz0, Int.fract_zero, hz0, Int.fract_zero]
        rw [if_neg (by unfold fvEpsilon; norm_num)]
        show fvAssemble _ sec00 defaultLocale ⌊((n+1:ℤ):ℚ)⌋ [⌊(0:ℚ)⌋, ⌊(0:ℚ)⌋] = _
        rw [show ⌊(0:ℚ)⌋ = 0 from Int.floor_zero, Int.floor_intCast]
        rw [fvAssemble_sec00 _ _ _ (by omega) 0 0]
        have hvsign : ((if v < 0 then -(((n+1 : ℤ) : ℚ)) else ((n+1 : ℤ) : ℚ)) < 0) ↔ (v < 0) := by
          by_cases hv : v < 0
          · rw [if_pos hv]
            exact iff_of_true (by linarith) hv
          · rw [if_neg hv]
            exact iff_of_false (by linarith) hv
        -- round2Spec value
        have hq2 : round2Spec a = 100 * (n + 1) := by
          unfold round2Spec
          rw [if_pos htie, hq, hd19, hd29]
          ring
        rw [hq2]
        have htn : (100 * (n + 1)).toNat = 100 * (n + 1).toNat := by omega
        unfold showDec2
        rw [htn, Nat.mul_div_cancel_left _ (by norm_num), Nat.mul_mod_right]
        rw [intToChars_digit 0 (by norm_num) (by norm_num)]
        rw [show padZeroLeft 2 (natToChars (0:ℕ)) = ['0', '0'] from by decide]
        by_cases hv : v < 0
        · rw [if_pos (hvsign.mpr hv), if_pos hv]
          rw [string_append_mk]
          rfl
        · rw [if_neg (fun hcon => hv (hvsign.mp hcon)), if_neg hv]
          show _ = String.mk [] ++ _
          rw [string_append_mk]
          rfl
      · -- carry only within the fractional digits
        rw [if_pos hc2, if_neg hc1]
        show fvAssemble v sec00 defaultLocale n [d1+1, d2+1-10] = _
        rw [fvAssemble_sec00 _ _ _ hn]
        have hd29 : d2 = 9 := by omega
        have hq2 : round2Spec a = 100 * n + 10 * (d1 + 1) := by
          unfold round2Spec
          rw [if_pos htie, hq, hd29]
          ring
        rw [hq2]
        have h1 : (100 * n + 10 * (d1 + 1)).toNat = 100 * n.toNat + (10 * (d1+1).toNat + 0) := by
          omega
        unfold showDec2
        rw [h1]
        have h2 : (100 * n.toNat + (10 * (d1+1).toNat + 0)) / 100 = n.toNat := by omega
        have h3 : (100 * n.toNat + (10 * (d1+1).toNat + 0)) % 100 = 10 * (d1+1).toNat + 0 := by
          omega
        rw [h2, h3, pad2_digits _ _ (by omega) (by norm_num)]
        rw [intToChars_digit (d1+1) (by omega) (by omega),
            intToChars_digit (d2+1-10) (by omega) (by omega)]
        have : (d2 + 1 - 10).toNat = 0 := by omega
        rw [this]
        by_cases hv : v < 0
        · rw [if_pos hv, if_pos hv, string_append_mk]
          rfl
        · rw [if_neg hv, if_neg hv]
          show _ = String.mk [] ++ _
          rw [string_append_mk]
          rfl
    · -- tie but no carry out of the last digit
      rw [if_neg hc2]
      show fvAssemble v sec00 defaultLocale n [d1, d2+1] = _
      rw [fvAssemble_sec00 _ _ _ hn]
      have hq2 : round2Spec a = 100 * n + (10 * d1 + (d2 + 1)) := by
        unfold round2Spec
        rw [if_pos htie, hq]
        ring
      rw [hq2]
      unfold showDec2
      have h1 : (100 * n + (10 * d1 + (d2+1))).toNat
          = 100 * n.toNat + (10 * d1.toNat + (d2+1).toNat) := by omega
      rw [h1]
      have h2 : (100 * n.toNat + (10 * d1.toNat + (d2+1).toNat)) / 100 = n.toNat := by omega
      have h3 : (100 * n.toNat + (10 * d1.toNat + (d2+1).toNat)) % 100
          = 10 * d1.toNat + (d2+1).toNat := by omega
      rw [h2, h3, pad2_digits _ _ (by omega) (by omega)]
      rw [intToChars_digit d1 hd1a (by omega), intToChars_digit (d2+1) (by omega) (by omega)]
      by_cases hv : v < 0
      · rw [if_pos hv, if_pos hv, string_append_mk]
        rfl
      · rw [if_neg hv, if_neg hv]
        show _ = String.mk [] ++ _
        rw [string_append_mk]
        rfl
  · -- no rounding
    rw [if_neg htie]
    show fvAssemble v sec00 defaultLocale n [d1, d2] = _
    rw [fvAssemble_sec00 _ _ _ hn]
    have hq2 : round2Spec a = 100 * n + (10 * d1 + d2) := by
      unfold round2Spec
      rw [if_neg htie, hq]
      ring
    rw [hq2]
    unfold showDec2
    have h1 : (100 * n + (10 * d1 + d2)).toNat
        = 100 * n.toNat + (10 * d1.toNat + d2.toNat) := by omega
    rw [h1]
    have h2 : (100 * n.toNat + (10 * d1.toNat + d2.toNat)) / 100 = n.toNat := by omega
    have h3 : (100 * n.toNat + (10 * d1.toNat + d2.toNat)) % 100
        = 10 * d1.toNat + d2.toNat := by omega
    rw [h2, h3, pad2_digits _ _ (by omega) (by omega)]
    rw [intToChars_digit d1 hd1a hd1b, intToChars_digit d2 hd2a hd2b]
    by_cases hv : v < 0
    · rw [if_pos hv, if_pos hv, string_append_mk]
      rfl
    · rw [if_neg hv, if_neg hv]
      show _ = String.mk [] ++ _
      rw [string_append_mk]
      rfl

/-- The two fractional digit characters rendered for any value are exactly
two digit characters. -/
theorem pad2_shape (m : ℕ) (hm : m < 100) :
    ∃ c1 c2, padZeroLeft 2 (natToChars m) = [c1, c2]
      ∧ c1.isDigit = true ∧ c2.isDigit = true := by
  have h := pad2_digits (m / 10) (m % 10) (by omega) (by omega)
  rw [show 10 * (m / 10) + m % 10 = m from by omega] at h
  exact ⟨_, _, h, digitChar_isDigit _ (by omega), digitChar_isDigit _ (by omega)⟩

/-- Claim C2: rendering any `v` through the compiled `0.00` yields the sign,
the integer digits of the half-away-from-zero rounding of `100·|v|` with the
`1e-9` epsilon guard on the tie comparison (`round2Spec`), a decimal point,
and exactly two fractional digit characters; in particular `0.994 → "0.99"`
and `0.995 → "1.00"` (the carry propagating into the integer part). -/
theorem c2_two_fraction_digit_rounding :
    (∀ v : ℚ, format_number v fmt00 defaultLocale =
        (if v < 0 then "-" else "") ++ showDec2 (round2Spec |v|))
    ∧ (∀ v : ℚ, ∃ pre c1 c2,
        format_number v fmt00 defaultLocale = String.mk (pre ++ '.' :: [c1, c2])
          ∧ c1.isDigit = true ∧ c2.isDigit = true ∧ '.' ∉ pre)
    ∧ format_number 0.994 fmt00 defaultLocale = "0.99"
    ∧ format_number 0.995 fmt00 defaultLocale = "1.00" := by
  refine ⟨c2_closed_form, ?_, by decide, by decide⟩
  intro v
  rw [c2_closed_form v]
  obtain ⟨c1, c2, hpad, hc1, hc2⟩ :=
    pad2_shape ((round2Spec |v|).toNat % 100) (Nat.mod_lt _ (by norm_num))
  refine ⟨(if v < 0 then ['-'] else []) ++ natToChars ((round2Spec |v|).toNat / 100),
    c1, c2, ?_, hc1, hc2, ?_⟩
  · unfold showDec2
    rw [hpad]
    by_cases hv : v < 0
    · rw [if_pos hv, if_pos hv, string_append_mk]
      simp
    · rw [if_neg hv, if_neg hv]
      show String.mk [] ++ _ = _
      rw [string_append_mk]
      simp
  · intro hmem
    rcases List.mem_append.mp hmem with hmem | hmem
    · by_cases hv : v < 0
      · rw [if_pos hv] at hmem
        simp at hmem
      · rw [if_neg hv] at hmem
        simp at hmem
    · have := natToChars_mem_isDigit _ _ hmem
      simp at this


/-! ## Claim C4 — negative values through the positive section -/

/-- Counterexample to C4 as stated: `(0.00)` compiles with no negative
section; rendering `-1` chooses the positive section, the placeholder
arithmetic runs on `|v| = 1` (the digits are `1.00`), but no `-` is prepended
— the parenthesis literals of the section handle the sign instead, so the
output is `"(1.00)"`, not `"-" ++ "(1.00)"`. -/
theorem c4_paren_counterexample :
    parse_number_format "(0.00)" = .ok fmtParen
    ∧ fmtParen.negative_section = none
    ∧ format_number (-1) fmtParen defaultLocale = "(1.00)"
    ∧ format_value 1 fmtParen.positive_section defaultLocale = "(1.00)"
    ∧ ("(1.00)" : String) ≠ "-" ++ "(1.00)" :=
  ⟨by decide, by decide, by decide, by decide, by decide⟩

/-- `"0.00-"` compiled: the positive section carries a trailing `-` literal
after the numeric core. -/
def fmtTrailDash : NumberFormat := compileD "0.00-"

/-- `"-0.00"` compiled: the positive section carries a leading `-` literal
before the numeric core. -/
def fmtLeadDash : NumberFormat := compileD "-0.00"

def secParen : FormatSection :=
  { tokens := [.LiteralChar '(', .DigitOrZero, .DecimalPoint, .DigitOrZero,
               .DigitOrZero, .LiteralChar ')'],
    num_integer_part_tokens := 1, num_fractional_part_tokens := 2 }

def secTrailDash : FormatSection :=
  { tokens := [.DigitOrZero, .DecimalPoint, .DigitOrZero, .DigitOrZero,
               .LiteralChar '-'],
    num_integer_part_tokens := 1, num_fractional_part_tokens := 2 }

def secLeadDash : FormatSection :=
  { tokens := [.LiteralChar '-', .DigitOrZero, .DecimalPoint, .DigitOrZero,
               .DigitOrZero],
    num_integer_part_tokens := 1, num_fractional_part_tokens := 2 }

theorem selectParen (v : ℚ) : select_section v fmtParen = secParen := by
  rw [show fmtParen = { positive_section := secParen } from by decide]
  by_cases h : v < 0 <;> by_cases h2 : v = 0 <;>
    simp [select_section, condHolds, selectNegCond, selectZeroCond, selectFallback, h, h2]

theorem selectTrailDash (v : ℚ) : select_section v fmtTrailDash = secTrailDash := by
  rw [show fmtTrailDash = { positive_section := secTrailDash } from by decide]
  by_cases h : v < 0 <;> by_cases h2 : v = 0 <;>
    simp [select_section, condHolds, selectNegCond, selectZeroCond, selectFallback, h, h2]

theorem selectLeadDash (v : ℚ) : select_section v fmtLeadDash = secLeadDash := by
  rw [show fmtLeadDash = { positive_section := secLeadDash } from by decide]
  by_cases h : v < 0 <;> by_cases h2 : v = 0 <;>
    simp [select_section, condHolds, selectNegCond, selectZeroCond, selectFallback, h, h2]

/-- The character list of `showDec2`: digits of the rounded value with the
decimal point, the sign excluded. -/
def dec2Chars (q : ℤ) : List Char :=
  natToChars (q.toNat / 100) ++ '.' :: padZeroLeft 2 (natToChars (q.toNat % 100))

theorem showDec2_eq_mk (q : ℤ) : showDec2 q = String.mk (dec2Chars q) := rfl

theorem dec2Chars_digits (n d1 d2 : ℤ) (hn : 0 ≤ n) (h1a : 0 ≤ d1) (h1b : d1 ≤ 9)
    (h2a : 0 ≤ d2) (h2b : d2 ≤ 9) :
    dec2Chars (100 * n + (10 * d1 + d2))
      = natToChars n.toNat ++ '.' :: (intToChars d1 ++ intToChars d2) := by
  unfold dec2Chars
  have h1 : (100 * n + (10 * d1 + d2)).toNat
      = 100 * n.toNat + (10 * d1.toNat + d2.toNat) := by omega
  rw [h1]
  have h2 : (100 * n.toNat + (10 * d1.toNat + d2.toNat)) / 100 = n.toNat := by omega
  have h3 : (100 * n.toNat + (10 * d1.toNat + d2.toNat)) % 100
      = 10 * d1.toNat + d2.toNat := by omega
  rw [h2, h3, pad2_digits _ _ (by omega) (by omega),
      intToChars_digit d1 h1a h1b, intToChars_digit d2 h2a h2b]
  rfl

theorem padZeroLeft_mem (w : Nat) (cs : List Char) (c : Char)
    (h : c ∈ padZeroLeft w cs) : c = '0' ∨ c ∈ cs := by
  unfold padZeroLeft at h
  rcases List.mem_append.mp h with h | h
  · exact Or.inl (List.eq_of_mem_replicate h)
  · exact Or.inr h

theorem dash_not_mem_dec2Chars (q : ℤ) : '-' ∉ dec2Chars q := by
  intro h
  unfold dec2Chars at h
  rcases List.mem_append.mp h with h | h
  · exact absurd (natToChars_mem_isDigit _ _ h) (by decide)
  · rcases List.mem_cons.mp h with h | h
    · exact absurd h (by decide)
    · rcases padZeroLeft_mem _ _ _ h with h | h
      · exact absurd h (by decide)
      · exact absurd (natToChars_mem_isDigit _ _ h) (by decide)

/-- `body_sec00` generalized to any section with two fractional `DigitOrZero`
placeholders, no percentage and no exponential token. -/
theorem body_dec2 (sec : FormatSection) (loc : LocaleSettings)
    (htext : (sec.tokens.any fun t => isNumericModeToken t) = true)
    (hperc : (sec.tokens.any fun t => t = FormatToken.Percentage) = false)
    (hexp : sec.tokens.findIdx?
      (fun t => match t with | .Exponential _ => true | _ => false) = none)
    (hfp : fracPlaceholderCount sec.tokens = 2)
    (recurse : ℚ → String) (v : ℚ) :
    formatValueBody recurse v sec loc =
      match (if (1/2 - fvEpsilon : ℚ) ≤ Int.fract (Int.fract (Int.fract |v| * 10) * 10)
             then roundDecimalDigits [⌊Int.fract |v| * 10⌋, ⌊Int.fract (Int.fract |v| * 10) * 10⌋]
             else some [⌊Int.fract |v| * 10⌋, ⌊Int.fract (Int.fract |v| * 10) * 10⌋]) with
      | none => recurse (if v < 0 then -((⌊|v|⌋ : ℚ) + 1) else (⌊|v|⌋ : ℚ) + 1)
      | some ds => fvAssemble v sec loc ⌊|v|⌋ ds := by
  have habs : (0:ℚ) ≤ |v| := abs_nonneg v
  have htrunc : ratTrunc |v| = ⌊|v|⌋ := if_pos habs
  have hfract : ratFract |v| = Int.fract |v| := ratFract_of_nonneg _ habs
  simp only [formatValueBody]
  rw [if_neg (by simp [htext])]
  simp only [hperc, Bool.false_eq_true, if_false, hexp]
  simp only [htrunc, hfract, hfp]
  rw [extract2 _ (Int.fract_nonneg _)]
  simp only [show ∀ (A : Prop),
      (A ∧ 0 < (2:ℕ) ∧ ([⌊Int.fract |v| * 10⌋, ⌊Int.fract (Int.fract |v| * 10) * 10⌋] : List ℤ) ≠ [])
        ↔ A from fun A => by simp]

/-- `c2_closed_form` generalized: any two-fractional-placeholder section whose
assembly wraps the digits in value-dependent prefix and suffix character lists
renders `pre ++ digits of round2Spec |v| ++ post`. -/
theorem closed_form_two (sec : FormatSection) (pre post : ℚ → List Char)
    (htext : (sec.tokens.any fun t => isNumericModeToken t) = true)
    (hperc : (sec.tokens.any fun t => t = FormatToken.Percentage) = false)
    (hexp : sec.tokens.findIdx?
      (fun t => match t with | .Exponential _ => true | _ => false) = none)
    (hfp : fracPlaceholderCount sec.tokens = 2)
    (hassemble : ∀ (w : ℚ) (n : ℤ), 0 ≤ n → ∀ e1 e2 : ℤ,
        fvAssemble w sec defaultLocale n [e1, e2]
          = String.mk (pre w ++ natToChars n.toNat
              ++ '.' :: (intToChars e1 ++ intToChars e2) ++ post w))
    (hsign : ∀ w w' : ℚ, (w < 0 ↔ w' < 0) → pre w = pre w' ∧ post w = post w')
    (v : ℚ) :
    formatValueAux 2 v sec defaultLocale
      = String.mk (pre v ++ dec2Chars (round2Spec |v|) ++ post v) := by
  rw [show formatValueAux 2 v sec defaultLocale
      = formatValueBody (fun v2 => formatValueAux 1 v2 sec defaultLocale) v sec defaultLocale
    from rfl]
  rw [body_dec2 sec defaultLocale htext hperc hexp hfp]
  set a := |v| with ha
  have habs : (0:ℚ) ≤ a := abs_nonneg v
  have hn : 0 ≤ ⌊a⌋ := Int.floor_nonneg.mpr habs
  set n := ⌊a⌋ with hndef
  set f := Int.fract a with hfdef
  have hf0 : 0 ≤ f := Int.fract_nonneg a
  have hf1 : f < 1 := Int.fract_lt_one a
  obtain ⟨hd1a, hd1b⟩ := floor_mul10_bounds f hf0 hf1
  obtain ⟨hd2a, hd2b⟩ := floor_mul10_bounds (Int.fract (f * 10)) (Int.fract_nonneg _) (Int.fract_lt_one _)
  set d1 := ⌊f * 10⌋ with hd1def
  set d2 := ⌊Int.fract (f * 10) * 10⌋ with hd2def
  have hr2 : Int.fract (Int.fract (f * 10) * 10) = Int.fract (a * 100) := fract_digits_r2 a
  have hq : ⌊a * 100⌋ = 100 * n + 10 * d1 + d2 := floor_a100 a
  rw [hr2]
  by_cases htie : (1/2 - fvEpsilon : ℚ) ≤ Int.fract (a * 100)
  · rw [if_pos htie, roundDD_pair]
    by_cases hc2 : 10 ≤ d2 + 1
    · by_cases hc1 : 10 ≤ d1 + 1
      · -- carry into the integer part
        rw [if_pos hc2, if_pos hc1]
        show formatValueAux 1 _ sec defaultLocale = _
        have hd19 : d1 = 9 := by omega
        have hd29 : d2 = 9 := by omega
        have hv2 : (if v < 0 then -((n:ℚ) + 1) else (n:ℚ) + 1)
            = (if v < 0 then -(((n+1 : ℤ) : ℚ)) else ((n+1 : ℤ) : ℚ)) := by
          by_cases hv : v < 0 <;> simp [hv]
        rw [hv2]
        rw [show ∀ w, formatValueAux 1 w sec defaultLocale
            = formatValueBody (fun v2 => formatValueAux 0 v2 sec defaultLocale) w sec defaultLocale
          from fun w => rfl]
        rw [body_dec2 sec defaultLocale htext hperc hexp hfp]
        have hposQ : (0:ℚ) ≤ ((n+1 : ℤ) : ℚ) := by
          exact_mod_cast (by omega : (0:ℤ) ≤ n + 1)
        have habs2 : |if v < 0 then -(((n+1 : ℤ) : ℚ)) else ((n+1 : ℤ) : ℚ)| = ((n+1 : ℤ) : ℚ) := by
          by_cases hv : v < 0
          · rw [if_pos hv, abs_neg, abs_of_nonneg hposQ]
          · rw [if_neg hv, abs_of_nonneg hposQ]
        rw [habs2]
        rw [Int.fract_intCast]
        have hz0 : ((0:ℚ) * 10) = 0 := by ring
        rw [hz0, Int.fract_zero, hz0, Int.fract_zero]
        rw [if_neg (by unfold fvEpsilon; norm_num)]
        show fvAssemble _ sec defaultLocale ⌊((n+1:ℤ):ℚ)⌋ [⌊(0:ℚ)⌋, ⌊(0:ℚ)⌋] = _
        rw [show ⌊(0:ℚ)⌋ = 0 from Int.floor_zero, Int.floor_intCast]
        rw [hassemble _ _ (by omega) 0 0]
        have hvsign : ((if v < 0 then -(((n+1 : ℤ) : ℚ)) else ((n+1 : ℤ) : ℚ)) < 0) ↔ (v < 0) := by
          by_cases hv : v < 0
          · rw [if_pos hv]
            have hposQ2 : (0:ℚ) < ((n+1 : ℤ) : ℚ) := by
              exact_mod_cast (by omega : (0:ℤ) < n + 1)
            exact iff_of_true (by linarith) hv
          · rw [if_neg hv]
            exact iff_of_false (by linarith) hv
        obtain ⟨hpre, hpost⟩ := hsign _ v hvsign
        rw [hpre, hpost]
        have hq2 : round2Spec a = 100 * (n + 1) := by
          unfold round2Spec
          rw [if_pos htie, hq, hd19, hd29]
          ring
        rw [hq2, show (100 * (n + 1) : ℤ) = 100 * (n + 1) + (10 * 0 + 0) from by ring,
            dec2Chars_digits (n+1) 0 0 (by omega) (by norm_num) (by norm_num)
              (by norm_num) (by norm_num)]
        simp [List.append_assoc]
      · -- carry only within the fractional digits
        rw [if_pos hc2, if_neg hc1]
        show fvAssemble v sec defaultLocale n [d1 + 1, d2 + 1 - 10] = _
        rw [hassemble v n hn (d1 + 1) (d2 + 1 - 10)]
        have hd29 : d2 = 9 := by omega
        have hq2 : round2Spec a = 100 * n + (10 * (d1 + 1) + (d2 + 1 - 10)) := by
          unfold round2Spec
          rw [if_pos htie, hq, hd29]
          ring
        rw [hq2, dec2Chars_digits n (d1 + 1) (d2 + 1 - 10) hn (by omega) (by omega)
              (by omega) (by omega)]
        simp [List.append_assoc]
    · -- tie but no carry out of the last digit
      rw [if_neg hc2]
      show fvAssemble v sec defaultLocale n [d1, d2 + 1] = _
      rw [hassemble v n hn d1 (d2 + 1)]
      have hq2 : round2Spec a = 100 * n + (10 * d1 + (d2 + 1)) := by
        unfold round2Spec
        rw [if_pos htie, hq]
        ring
      rw [hq2, dec2Chars_digits n d1 (d2 + 1) hn hd1a hd1b (by omega) (by omega)]
      simp [List.append_assoc]
  · -- no rounding
    rw [if_neg htie]
    show fvAssemble v sec defaultLocale n [d1, d2] = _
    rw [hassemble v n hn d1 d2]
    have hq2 : round2Spec a = 100 * n + (10 * d1 + d2) := by
      unfold round2Spec
      rw [if_neg htie, hq]
      ring
    rw [hq2, dec2Chars_digits n d1 d2 hn hd1a hd1b hd2a hd2b]
    simp [List.append_assoc]


theorem walk_secParen (ctx : FVCtx)
    (hpar : ctx.usesParens = true)
    (hpad : ctx.paddingLen = 0)
    (htph : ctx.totalIntPh = 1)
    (e1 e2 : ℤ) (hdd : ctx.decimalDigits = [e1, e2])
    (ds : List Char) (hds : ds ≠ []) (hdig : ∀ c ∈ ds, c.isDigit = true) :
    List.foldl (fvStep ctx) (fvInit ds) secParen.tokens =
      ⟨('(' :: (ds ++ ctx.locale.decimal_point :: (intToChars e1 ++ intToChars e2))) ++ [')'],
       [], ctx.isNegative, true, 2, 1, true⟩ := by
  obtain ⟨c, cs, rfl⟩ := List.exists_cons_of_ne_nil hds
  have hcdig : c.isDigit = true := hdig c (List.mem_cons_self _ _)
  show List.foldl (fvStep ctx) (fvInit (c :: cs))
      [.LiteralChar '(', .DigitOrZero, .DecimalPoint, .DigitOrZero, .DigitOrZero,
       .LiteralChar ')'] = _
  simp only [List.foldl]
  have s0 : fvStep ctx (fvInit (c :: cs)) (.LiteralChar '(') =
      ⟨['('], c :: cs, ctx.isNegative, false, 0, 0, false⟩ := by
    simp only [fvStep, fvInit, fvDrainLit, hpar, htph]
    cases hneg : ctx.isNegative <;> simp
  rw [s0]
  have s1 : fvStep ctx ⟨['('], c :: cs, ctx.isNegative, false, 0, 0, false⟩ .DigitOrZero =
      ⟨['(', c], cs, ctx.isNegative, false, 0, 1, true⟩ := by
    simp only [fvStep, hpad, hpar]
    cases hneg : ctx.isNegative <;> simp [hcdig]
  rw [s1]
  have s2 : fvStep ctx ⟨['(', c], cs, ctx.isNegative, false, 0, 1, true⟩ .DecimalPoint =
      ⟨('(' :: (c :: cs)) ++ [ctx.locale.decimal_point], [], ctx.isNegative,
       true, 0, 1, true⟩ := by
    simp only [fvStep, fvDrainAll, hpar]
    cases hneg : ctx.isNegative <;> rcases cs with _ | ⟨c2, cs2⟩ <;> simp
  rw [s2]
  have s3 : ∀ (res : List Char) (fp : ℕ), fp < 2 →
      fvStep ctx ⟨res, [], ctx.isNegative, true, fp, 1, true⟩ .DigitOrZero =
      ⟨res ++ intToChars (ctx.decimalDigits.getD fp 0), [], ctx.isNegative,
       true, fp + 1, 1, true⟩ := by
    intro res fp hfp
    have hlen : fp < ctx.decimalDigits.length := by rw [hdd]; simpa using hfp
    simp [fvStep, hlen]
  rw [s3 _ 0 (by norm_num), s3 _ 1 (by norm_num)]
  have s5 : ∀ (res : List Char),
      fvStep ctx ⟨res, [], ctx.isNegative, true, 2, 1, true⟩ (.LiteralChar ')') =
      ⟨res ++ [')'], [], ctx.isNegative, true, 2, 1, true⟩ := by
    intro res
    simp only [fvStep, fvDrainLit, hpar]
    cases hneg : ctx.isNegative <;> simp
  rw [s5]
  simp [hdd]

theorem walk_secTrailDash (ctx : FVCtx)
    (hpar : ctx.usesParens = false)
    (hpad : ctx.paddingLen = 0)
    (e1 e2 : ℤ) (hdd : ctx.decimalDigits = [e1, e2])
    (ds : List Char) (hds : ds ≠ []) (hdig : ∀ c ∈ ds, c.isDigit = true) :
    List.foldl (fvStep ctx) (fvInit ds) secTrailDash.tokens =
      ⟨((if ctx.isNegative then ['-'] else []) ++ ds
          ++ ctx.locale.decimal_point :: (intToChars e1 ++ intToChars e2)) ++ ['-'],
       [], ctx.isNegative, true, 2, 1, true⟩ := by
  obtain ⟨c, cs, rfl⟩ := List.exists_cons_of_ne_nil hds
  have hcdig : c.isDigit = true := hdig c (List.mem_cons_self _ _)
  show List.foldl (fvStep ctx) (fvInit (c :: cs))
      [.DigitOrZero, .DecimalPoint, .DigitOrZero, .DigitOrZero, .LiteralChar '-'] = _
  simp only [List.foldl]
  have s1 : fvStep ctx (fvInit (c :: cs)) .DigitOrZero =
      ⟨(if ctx.isNegative then ['-'] else []) ++ [c], cs, ctx.isNegative,
       false, 0, 1, true⟩ := by
    simp only [fvStep, fvInit, hpad, hpar]
    cases hneg : ctx.isNegative <;> simp [hcdig]
  rw [s1]
  have s2 : fvStep ctx ⟨(if ctx.isNegative then ['-'] else []) ++ [c], cs,
        ctx.isNegative, false, 0, 1, true⟩ .DecimalPoint =
      ⟨(if ctx.isNegative then ['-'] else []) ++ (c :: cs)
          ++ [ctx.locale.decimal_point], [], ctx.isNegative, true, 0, 1, true⟩ := by
    simp only [fvStep, fvDrainAll]
    cases hneg : ctx.isNegative <;> rcases cs with _ | ⟨c2, cs2⟩ <;> simp
  rw [s2]
  have s3 : ∀ (res : List Char) (fp : ℕ), fp < 2 →
      fvStep ctx ⟨res, [], ctx.isNegative, true, fp, 1, true⟩ .DigitOrZero =
      ⟨res ++ intToChars (ctx.decimalDigits.getD fp 0), [], ctx.isNegative,
       true, fp + 1, 1, true⟩ := by
    intro res fp hfp
    have hlen : fp < ctx.decimalDigits.length := by rw [hdd]; simpa using hfp
    simp [fvStep, hlen]
  rw [s3 _ 0 (by norm_num), s3 _ 1 (by norm_num)]
  have s5 : ∀ (res : List Char),
      fvStep ctx ⟨res, [], ctx.isNegative, true, 2, 1, true⟩ (.LiteralChar '-') =
      ⟨res ++ ['-'], [], ctx.isNegative, true, 2, 1, true⟩ := by
    intro res
    simp only [fvStep, fvDrainLit, hpar]
    cases hneg : ctx.isNegative <;> simp
  rw [s5]
  simp [hdd]

theorem walk_secLeadDash (ctx : FVCtx)
    (hpar : ctx.usesParens = false)
    (hpad : ctx.paddingLen = 0)
    (htph : ctx.totalIntPh = 1)
    (e1 e2 : ℤ) (hdd : ctx.decimalDigits = [e1, e2])
    (ds : List Char) (hds : ds ≠ []) (hdig : ∀ c ∈ ds, c.isDigit = true) :
    List.foldl (fvStep ctx) (fvInit ds) secLeadDash.tokens =
      ⟨'-' :: (ds ++ ctx.locale.decimal_point :: (intToChars e1 ++ intToChars e2)),
       [], ctx.isNegative, true, 2, 1, true⟩ := by
  obtain ⟨c, cs, rfl⟩ := List.exists_cons_of_ne_nil hds
  have hcdig : c.isDigit = true := hdig c (List.mem_cons_self _ _)
  show List.foldl (fvStep ctx) (fvInit (c :: cs))
      [.LiteralChar '-', .DigitOrZero, .DecimalPoint, .DigitOrZero, .DigitOrZero] = _
  simp only [List.foldl]
  have s0 : fvStep ctx (fvInit (c :: cs)) (.LiteralChar '-') =
      ⟨['-'], c :: cs, ctx.isNegative, false, 0, 0, false⟩ := by
    simp only [fvStep, fvInit, fvDrainLit, hpar, htph]
    cases hneg : ctx.isNegative <;> simp
  rw [s0]
  have s1 : fvStep ctx ⟨['-'], c :: cs, ctx.isNegative, false, 0, 0, false⟩ .DigitOrZero =
      ⟨['-', c], cs, ctx.isNegative, false, 0, 1, true⟩ := by
    simp only [fvStep, hpad, hpar]
    cases hneg : ctx.isNegative <;> simp [hcdig]
  rw [s1]
  have s2 : fvStep ctx ⟨['-', c], cs, ctx.isNegative, false, 0, 1, true⟩ .DecimalPoint =
      ⟨('-' :: (c :: cs)) ++ [ctx.locale.decimal_point], [], ctx.isNegative,
       true, 0, 1, true⟩ := by
    simp only [fvStep, fvDrainAll]
    cases hneg : ctx.isNegative <;> rcases cs with _ | ⟨c2, cs2⟩ <;> simp
  rw [s2]
  have s3 : ∀ (res : List Char) (fp : ℕ), fp < 2 →
      fvStep ctx ⟨res, [], ctx.isNegative, true, fp, 1, true⟩ .DigitOrZero =
      ⟨res ++ intToChars (ctx.decimalDigits.getD fp 0), [], ctx.isNegative,
       true, fp + 1, 1, true⟩ := by
    intro res fp hfp
    have hlen : fp < ctx.decimalDigits.length := by rw [hdd]; simpa using hfp
    simp [fvStep, hlen]
  rw [s3 _ 0 (by norm_num), s3 _ 1 (by norm_num)]
  simp [hdd]

theorem fvAssemble_secParen (w : ℚ) (n : ℤ) (hn : 0 ≤ n) (e1 e2 : ℤ) :
    fvAssemble w secParen defaultLocale n [e1, e2]
      = String.mk (['('] ++ natToChars n.toNat
          ++ '.' :: (intToChars e1 ++ intToChars e2) ++ [')']) := by
  have hint : intToChars n = natToChars n.toNat := by
    unfold intToChars
    rw [if_neg (by omega)]
  have hsep : (secParen.tokens.any fun t => decide (t = FormatToken.ThousandsSeparator)) = false := by
    decide
  simp only [fvAssemble, hint]
  rw [show (if (secParen.tokens.any fun t => decide (t = FormatToken.ThousandsSeparator)) = true
          ∧ natToChars n.toNat ≠ ([] : List Char) then
        applyGrouping defaultLocale.thousands_separator (natToChars n.toNat)
      else natToChars n.toNat) = natToChars n.toNat from by rw [hsep]; simp]
  rw [walk_secParen _
      (by decide :
        (secParen.tokens.any fun t => decide (t = FormatToken.LiteralChar '('
          ∨ t = FormatToken.LiteralChar ')')) = true)
      ?hpad ?htph e1 e2 rfl _ (natToChars_ne_nil _)
      (fun c hc => natToChars_mem_isDigit _ c hc)]
  case hpad =>
    show List.countP _ _ - (natToChars n.toNat).length = 0
    have h1 : List.countP (fun t => isDigitPh t)
        (List.takeWhile (fun t => decide (t ≠ FormatToken.DecimalPoint)) secParen.tokens) = 1 := by
      decide
    rw [h1]
    have := natToChars_length_pos n.toNat
    omega
  case htph =>
    show List.countP _ _ = 1
    decide
  · by_cases hv : w < 0 <;>
      simp [fvDrainAll, hv,
        show (secParen.tokens.any fun t => decide (t = FormatToken.LiteralChar '('
          ∨ t = FormatToken.LiteralChar ')')) = true from by decide,
        show defaultLocale.decimal_point = '.' from rfl]

theorem fvAssemble_secTrailDash (w : ℚ) (n : ℤ) (hn : 0 ≤ n) (e1 e2 : ℤ) :
    fvAssemble w secTrailDash defaultLocale n [e1, e2]
      = String.mk ((if w < 0 then ['-'] else []) ++ natToChars n.toNat
          ++ '.' :: (intToChars e1 ++ intToChars e2) ++ ['-']) := by
  have hint : intToChars n = natToChars n.toNat := by
    unfold intToChars
    rw [if_neg (by omega)]
  have hsep : (secTrailDash.tokens.any fun t => decide (t = FormatToken.ThousandsSeparator)) = false := by
    decide
  simp only [fvAssemble, hint]
  rw [show (if (secTrailDash.tokens.any fun t => decide (t = FormatToken.ThousandsSeparator)) = true
          ∧ natToChars n.toNat ≠ ([] : List Char) then
        applyGrouping defaultLocale.thousands_separator (natToChars n.toNat)
      else natToChars n.toNat) = natToChars n.toNat from by rw [hsep]; simp]
  rw [walk_secTrailDash _
      (by decide :
        (secTrailDash.tokens.any fun t => decide (t = FormatToken.LiteralChar '('
          ∨ t = FormatToken.LiteralChar ')')) = false)
      ?hpad e1 e2 rfl _ (natToChars_ne_nil _)
      (fun c hc => natToChars_mem_isDigit _ c hc)]
  case hpad =>
    show List.countP _ _ - (natToChars n.toNat).length = 0
    have h1 : List.countP (fun t => isDigitPh t)
        (List.takeWhile (fun t => decide (t ≠ FormatToken.DecimalPoint)) secTrailDash.tokens) = 1 := by
      decide
    rw [h1]
    have := natToChars_length_pos n.toNat
    omega
  · by_cases hv : w < 0 <;>
      simp [fvDrainAll, hv,
        show (secTrailDash.tokens.any fun t => decide (t = FormatToken.LiteralChar '('
          ∨ t = FormatToken.LiteralChar ')')) = false from by decide,
        show defaultLocale.decimal_point = '.' from rfl]

theorem fvAssemble_secLeadDash (w : ℚ) (n : ℤ) (hn : 0 ≤ n) (e1 e2 : ℤ) :
    fvAssemble w secLeadDash defaultLocale n [e1, e2]
      = String.mk (['-'] ++ natToChars n.toNat
          ++ '.' :: (intToChars e1 ++ intToChars e2) ++ []) := by
  have hint : intToChars n = natToChars n.toNat := by
    unfold intToChars
    rw [if_neg (by omega)]
  have hsep : (secLeadDash.tokens.any fun t => decide (t = FormatToken.ThousandsSeparator)) = false := by
    decide
  simp only [fvAssemble, hint]
  rw [show (if (secLeadDash.tokens.any fun t => decide (t = FormatToken.ThousandsSeparator)) = true
          ∧ natToChars n.toNat ≠ ([] : List Char) then
        applyGrouping defaultLocale.thousands_separator (natToChars n.toNat)
      else natToChars n.toNat) = natToChars n.toNat from by rw [hsep]; simp]
  rw [walk_secLeadDash _
      (by decide :
        (secLeadDash.tokens.any fun t => decide (t = FormatToken.LiteralChar '('
          ∨ t = FormatToken.LiteralChar ')')) = false)
      ?hpad ?htph e1 e2 rfl _ (natToChars_ne_nil _)
      (fun c hc => natToChars_mem_isDigit _ c hc)]
  case hpad =>
    show List.countP _ _ - (natToChars n.toNat).length = 0
    have h1 : List.countP (fun t => isDigitPh t)
        (List.takeWhile (fun t => decide (t ≠ FormatToken.DecimalPoint)) secLeadDash.tokens) = 1 := by
      decide
    rw [h1]
    have := natToChars_length_pos n.toNat
    omega
  case htph =>
    show List.countP _ _ = 1
    decide
  · by_cases hv : w < 0 <;>
      simp [fvDrainAll, hv,
        show (secLeadDash.tokens.any fun t => decide (t = FormatToken.LiteralChar '('
          ∨ t = FormatToken.LiteralChar ')')) = false from by decide,
        show defaultLocale.decimal_point = '.' from rfl]

theorem paren_closed_form (v : ℚ) :
    format_number v fmtParen defaultLocale
      = String.mk (['('] ++ dec2Chars (round2Spec |v|) ++ [')']) := by
  have hfmt : format_number v fmtParen defaultLocale
      = formatValueAux 2 v secParen defaultLocale := by
    unfold format_number format_value
    rw [selectParen v]
  rw [hfmt]
  exact closed_form_two secParen (fun _ => ['(']) (fun _ => [')'])
    (by decide) (by decide) (by decide) (by decide)
    (fun w n hn e1 e2 => fvAssemble_secParen w n hn e1 e2)
    (fun w w' h => ⟨rfl, rfl⟩) v

theorem trailDash_closed_form (v : ℚ) :
    format_number v fmtTrailDash defaultLocale
      = String.mk ((if v < 0 then ['-'] else []) ++ dec2Chars (round2Spec |v|) ++ ['-']) := by
  have hfmt : format_number v fmtTrailDash defaultLocale
      = formatValueAux 2 v secTrailDash defaultLocale := by
    unfold format_number format_value
    rw [selectTrailDash v]
  rw [hfmt]
  exact closed_form_two secTrailDash (fun w => if w < 0 then ['-'] else []) (fun _ => ['-'])
    (by decide) (by decide) (by decide) (by decide)
    (fun w n hn e1 e2 => fvAssemble_secTrailDash w n hn e1 e2)
    (fun w w' h => ⟨by
      show (if w < 0 then ['-'] else []) = (if w' < 0 then ['-'] else [])
      by_cases hw : w < 0
      · rw [if_pos hw, if_pos (h.mp hw)]
      · rw [if_neg hw, if_neg (fun hc => hw (h.mpr hc))], rfl⟩) v

theorem leadDash_closed_form (v : ℚ) :
    format_number v fmtLeadDash defaultLocale
      = String.mk (['-'] ++ dec2Chars (round2Spec |v|) ++ []) := by
  have hfmt : format_number v fmtLeadDash defaultLocale
      = formatValueAux 2 v secLeadDash defaultLocale := by
    unfold format_number format_value
    rw [selectLeadDash v]
  rw [hfmt]
  exact closed_form_two secLeadDash (fun _ => ['-']) (fun _ => [])
    (by decide) (by decide) (by decide) (by decide)
    (fun w n hn e1 e2 => fvAssemble_secLeadDash w n hn e1 e2)
    (fun w w' h => ⟨rfl, rfl⟩) v

/-- The positive-section render of the absolute value through `0.00`, for a
negative input: no sign, just the rounded digits. -/
theorem fmt00_of_neg (v : ℚ) (hv : v < 0) :
    format_number (-v) fmt00 defaultLocale = String.mk (dec2Chars (round2Spec |v|)) := by
  rw [c2_closed_form (-v), if_neg (by linarith), abs_neg]
  rw [showDec2_eq_mk]
  show String.mk [] ++ _ = _
  rw [string_append_mk]
  simp

/-- Claim C4 as amended: for every negative value rendered through a format
with no negative section, the positive section is chosen and all placeholder
arithmetic operates on `|v|`, but the `-` is not unconditional and sign-like
literals are not ignored: a section containing a parenthesis literal emits no
`-` at all — the digits render inside the parentheses (`"(0.00)"`); otherwise
exactly one sign `-` is emitted, at the earliest of a `-` literal reached
before the first digit output (`"-0.00"`, where the literal doubles as the
sign, leaving exactly one `-` in the output) or the first digit-emission site
(`"0.00"`); a `-` literal reached only after the sign was emitted prints
again as a plain literal, so `"0.00-"` renders with both the prepended sign
and the trailing literal (`-5 → "-5.00-"`). -/
theorem c4_fallback_negative_sign :
    (∀ v : ℚ, v < 0 →
        format_number v fmt00 defaultLocale = "-" ++ format_number (-v) fmt00 defaultLocale)
    ∧ (∀ v : ℚ, v < 0 →
        format_number v fmtParen defaultLocale
            = "(" ++ format_number (-v) fmt00 defaultLocale ++ ")"
          ∧ '-' ∉ (format_number v fmtParen defaultLocale).data)
    ∧ (∀ v : ℚ, v < 0 →
        format_number v fmtTrailDash defaultLocale
          = "-" ++ format_number (-v) fmt00 defaultLocale ++ "-")
    ∧ (∀ v : ℚ, v < 0 →
        format_number v fmtLeadDash defaultLocale
            = "-" ++ format_number (-v) fmt00 defaultLocale
          ∧ (format_number v fmtLeadDash defaultLocale).data.count '-' = 1)
    ∧ format_number (-5) fmtTrailDash defaultLocale = "-5.00-"
    ∧ format_number (-1) fmtParen defaultLocale = "(1.00)" := by
  refine ⟨?_, ?_, ?_, ?_, by decide, by decide⟩
  · intro v hv
    rw [c2_closed_form v, c2_closed_form (-v)]
    rw [if_pos hv, if_neg (by linarith), abs_neg]
    rw [show ("" : String) = String.mk [] from rfl,
        show ("-" : String) = String.mk ['-'] from rfl]
    unfold showDec2
    rw [string_append_mk, string_append_mk, string_append_mk]
    simp
  · intro v hv
    refine ⟨?_, ?_⟩
    · rw [paren_closed_form v, fmt00_of_neg v hv]
      rw [show ("(" : String) = String.mk ['('] from rfl,
          show (")" : String) = String.mk [')'] from rfl,
          string_append_mk, string_append_mk]
    · rw [paren_closed_form v]
      show '-' ∉ (['('] ++ dec2Chars (round2Spec |v|) ++ [')'])
      intro hmem
      rcases List.mem_append.mp hmem with hmem | hmem
      · rcases List.mem_append.mp hmem with hmem | hmem
        · exact absurd (List.mem_singleton.mp hmem) (by decide)
        · exact dash_not_mem_dec2Chars _ hmem
      · exact absurd (List.mem_singleton.mp hmem) (by decide)
  · intro v hv
    rw [trailDash_closed_form v, if_pos hv, fmt00_of_neg v hv]
    rw [show ("-" : String) = String.mk ['-'] from rfl, string_append_mk, string_append_mk]
  · intro v hv
    refine ⟨?_, ?_⟩
    · rw [leadDash_closed_form v, fmt00_of_neg v hv,
          show ("-" : String) = String.mk ['-'] from rfl, string_append_mk]
      simp
    · rw [leadDash_closed_form v]
      show (['-'] ++ dec2Chars (round2Spec |v|) ++ []).count '-' = 1
      have hd := dash_not_mem_dec2Chars (round2Spec |v|)
      simp [List.count_append, List.count_eq_zero.mpr hd]

/-- Witness for C4 at `v = -2` (plain section) and `v = -5` (trailing `-`
literal). -/
theorem c4_fallback_negative_sign_witness :
    format_number (-2) fmt00 defaultLocale = "-" ++ format_number 2 fmt00 defaultLocale
      ∧ format_number (-5) fmtTrailDash defaultLocale
          = "-" ++ format_number 5 fmt00 defaultLocale ++ "-" :=
  ⟨c4_fallback_negative_sign.1 (-2) (by norm_num),
   c4_fallback_negative_sign.2.2.1 (-5) (by norm_num)⟩

/-! ## Claim C7 — the exponential renderer -/

/-- A format whose only section is unconditioned selects that section for
every value. -/
theorem select_single (f : NumberFormat) (hneg : f.negative_section = none)
    (hzero : f.zero_section = none) (hc : f.positive_section.condition = none)
    (v : ℚ) : select_section v f = f.positive_section := by
  by_cases h : v < 0 <;> by_cases h2 : v = 0 <;>
    simp [select_section, condHolds, selectNegCond, selectZeroCond, selectFallback,
      hneg, hzero, hc, h, h2]

/-- The render of the spec (section 4.6), written from its words: exponent
`⌊log10 |v|⌋` and mantissa `|v|/10^exponent` (`(0,0)` for zero), mantissa
rounded to the placeholder precision, exponent bumped when the rounded
mantissa reaches 10, then `sign ++ mantissa ++ "E" ++ exponent_sign ++
2-digit-zero-padded |exponent|` where the exponent sign is `-` when the
exponent is negative, else `+` for an `E+` token and empty for `E-`. -/
def expSpecRender (v : ℚ) (esign : ExpSign) (precision : Nat) (loc : LocaleSettings) : String :=
  let absV := |v|
  let exponent : ℤ := if absV = 0 then 0 else ratLog10Floor absV
  let mantissa : ℚ := if absV = 0 then 0 else absV / (10 : ℚ) ^ ratLog10Floor absV
  let rounded : ℚ := (rustRound (mantissa * (10 : ℚ) ^ precision) : ℚ) / (10 : ℚ) ^ precision
  let me : ℚ × ℤ :=
    if rounded = 0 then (0, 0)
    else if 10 ≤ rounded then (rounded / 10, exponent + 1)
    else (rounded, exponent)
  (if v < 0 then "-" else "")
    ++ fmtPrec me.1 precision loc.decimal_point ++ "E"
    ++ (if me.2 < 0 then "-" else match esign with | .plus => "+" | .minus => "")
    ++ String.mk (padZeroLeft 2 (natToChars me.2.natAbs))

theorem exp_secEp (v : ℚ) (loc : LocaleSettings) :
    format_exponential v fmtEp.positive_section 4 loc = expSpecRender v .plus 2 loc := by
  unfold format_exponential expSpecRender
  rw [show fracPlaceholderCount (fmtEp.positive_section.tokens.take 4) = 2 from by decide]
  rw [show fmtEp.positive_section.tokens.getD 4 (.LiteralChar ' ') =
      FormatToken.Exponential .plus from by decide]
  by_cases h0 : |v| = 0 <;> simp [h0]

theorem exp_secEm (v : ℚ) (loc : LocaleSettings) :
    format_exponential v fmtEm.positive_section 4 loc = expSpecRender v .minus 2 loc := by
  unfold format_exponential expSpecRender
  rw [show fracPlaceholderCount (fmtEm.positive_section.tokens.take 4) = 2 from by decide]
  rw [show fmtEm.positive_section.tokens.getD 4 (.LiteralChar ' ') =
      FormatToken.Exponential .minus from by decide]
  by_cases h0 : |v| = 0 <;> simp [h0]

/-- Dispatch: a section containing an `E+` token routes `format_value` to
`format_exponential` with the token index. -/
theorem dispatch_exp_fmtEp (v : ℚ) (loc : LocaleSettings) :
    format_number v fmtEp loc = format_exponential v fmtEp.positive_section 4 loc := by
  have hsel : select_section v fmtEp = fmtEp.positive_section :=
    select_single _ (by decide) (by decide) (by decide) v
  unfold format_number format_value
  rw [hsel]
  rw [show ∀ w, formatValueAux 2 w fmtEp.positive_section loc
      = formatValueBody (fun v2 => formatValueAux 1 v2 fmtEp.positive_section loc)
          w fmtEp.positive_section loc from fun w => rfl]
  simp only [formatValueBody]
  rw [if_neg (by decide)]
  simp only [show (fmtEp.positive_section.tokens.any fun t => t = FormatToken.Percentage)
      = false from by decide, Bool.false_eq_true, if_false,
    show fmtEp.positive_section.tokens.findIdx?
        (fun t => match t with | .Exponential _ => true | _ => false) = some 4 from by decide]

theorem dispatch_exp_fmtEm (v : ℚ) (loc : LocaleSettings) :
    format_number v fmtEm loc = format_exponential v fmtEm.positive_section 4 loc := by
  have hsel : select_section v fmtEm = fmtEm.positive_section :=
    select_single _ (by decide) (by decide) (by decide) v
  unfold format_number format_value
  rw [hsel]
  rw [show ∀ w, formatValueAux 2 w fmtEm.positive_section loc
      = formatValueBody (fun v2 => formatValueAux 1 v2 fmtEm.positive_section loc)
          w fmtEm.positive_section loc from fun w => rfl]
  simp only [formatValueBody]
  rw [if_neg (by decide)]
  simp only [show (fmtEm.positive_section.tokens.any fun t => t = FormatToken.Percentage)
      = false from by decide, Bool.false_eq_true, if_false,
    show fmtEm.positive_section.tokens.findIdx?
        (fun t => match t with | .Exponential _ => true | _ => false) = some 4 from by decide]

/-- Claim C7: through the compiled `0.00E+00` and `0.00E-00` the renderer
emits exactly the spec-side assembly `expSpecRender` — sign, mantissa rounded
to the two fractional placeholders before `E`, `"E"`, the token-dependent
exponent sign (`-` for a negative exponent, else `+` for `E+` and nothing for
`E-`), and the absolute exponent zero-padded to two digits; in particular
`12345.67 → "1.23E+04"`. -/
theorem c7_exponential_renderer :
    (∀ v : ℚ, format_number v fmtEp defaultLocale = expSpecRender v .plus 2 defaultLocale)
    ∧ (∀ v : ℚ, format_number v fmtEm defaultLocale = expSpecRender v .minus 2 defaultLocale)
    ∧ format_number 12345.67 fmtEp defaultLocale = "1.23E+04"
    ∧ format_number 0.0123 fmtEp defaultLocale = "1.23E-02"
    ∧ format_number 12345.67 fmtEm defaultLocale = "1.23E04"
    ∧ format_number (-12345.67) fmtEp defaultLocale = "-1.23E+04" := by
  refine ⟨?_, ?_, by decide, by decide, by decide, by decide⟩
  · intro v
    rw [dispatch_exp_fmtEp, exp_secEp]
  · intro v
    rw [dispatch_exp_fmtEm, exp_secEm]

end NumFmt
